import Mathlib

/-!
# statefun-module-upgrade: legacy module.yaml to the 3.1 format

A shallow embedding of `main.go`.  The program decodes a legacy StateFun
`module.yaml` with `gopkg.in/yaml.v2`, rewrites every endpoint, ingress and
egress into the flat `kind`/`spec` shape and prints the re-encoded components.

The YAML library is not part of the repository.  Its behaviour is embedded at
the level of the YAML representation tree:

* a document is a `Node`; a scalar node carries its text and the Go value the
  resolver of the library gives that text; the keys of one mapping are
  pairwise distinct, as YAML requires; keys are string scalars and are kept by
  their text; anchors, the merge key and complex keys are outside the model;
* decoding a node into a Go value follows the decoder of yaml.v2: an absent
  key and a null node both leave the zero value, a non-null scalar decodes
  into a `string` field as its text and into an `interface{}` as its resolved
  value, a mapping decodes into a struct field by field, every other
  combination is a type error;
* a decoded `interface{}` value is kept as the node it was decoded from, which
  stands for the resolved value: the text of its scalars is not part of the Go
  value;
* encoding a Go value yields the tree the encoder emits: struct fields in
  declaration order, a field tagged `omitempty` skipped when it holds its zero
  value, an `interface{}` value emitted in canonical form, every scalar with
  the text the encoder writes for its resolved value (the order of the keys
  inside such an opaque mapping is not significant).

The emitter that renders a tree as text is a parameter of `Module.MarshalText`
and `convert`; `fmt.Printf` is a parameter of `convert`, and `fmtPrintf` is its
model for a call without operands.
-/

namespace Statefun

/-! ## YAML representation trees -/

/-- The Go value a non-null scalar resolves to when it is decoded into an
`interface{}`: a string, an integer (an `int`, `int64` or `uint64` of Go; no
arithmetic is done on it), a boolean, or a float64, which is named by the text
the encoder writes for it. -/
inductive Scalar where
  | str (s : String) : Scalar
  | int (n : Int) : Scalar
  | bool (b : Bool) : Scalar
  | float (text : String) : Scalar
  deriving DecidableEq, Repr

/-- The text the encoder writes for a resolved scalar: the string itself, the
decimal digits of an integer, `true` or `false`, the text of a float. -/
def Scalar.text : Scalar → String
  | Scalar.str s => s
  | Scalar.int n => toString n
  | Scalar.bool b => if b then "true" else "false"
  | Scalar.float t => t

/-- A node of a YAML document: null, a non-null scalar with the value it
resolves to and its text, a sequence, or a mapping in document order. -/
inductive Node where
  | null : Node
  | scalar (value : Scalar) (text : String) : Node
  | seq (items : List Node) : Node
  | map (entries : List (String × Node)) : Node
  deriving Repr

instance : Inhabited Node := ⟨Node.null⟩

/-- A string scalar. -/
def Node.str (s : String) : Node := Node.scalar (Scalar.str s) s

mutual
/-- The tree the encoder emits for the Go value a node was decoded into as an
`interface{}`: every scalar with the text of its resolved value.  The entries
of a mapping are kept in the order of the document; the encoder sorts them,
and that order is not significant. -/
def Node.canon : Node → Node
  | Node.null => Node.null
  | Node.scalar v _ => Node.scalar v v.text
  | Node.seq xs => Node.seq (canonList xs)
  | Node.map es => Node.map (canonEntries es)
/-- The canonical form of the items of a sequence. -/
def canonList : List Node → List Node
  | [] => []
  | x :: xs => x.canon :: canonList xs
/-- The canonical form of the values of a mapping. -/
def canonEntries : List (String × Node) → List (String × Node)
  | [] => []
  | (k, v) :: es => (k, v.canon) :: canonEntries es
end

/-- The value stored under key `k` when the node is a mapping. -/
def Node.lookup (k : String) : Node → Option Node
  | Node.map es => es.lookup k
  | _ => none

/-- The node reached by following the keys of `path` from the root. -/
def Node.path : List String → Node → Option Node
  | [], n => some n
  | k :: ks, n => (n.lookup k).bind (Node.path ks)

/-- The text of an optional scalar: empty when the node is absent, null or not
a scalar. -/
def Node.text : Option Node → String
  | some (Node.scalar _ s) => s
  | _ => ""

/-! ## Errors -/

/-- The errors of the program: a yaml.v2 `*TypeError` and a yaml.v2 parse
error (their texts are not modelled), an error built by `fmt.Errorf` without
wrapping, and an error built by `fmt.Errorf("<text>: %w", inner)`. -/
inductive Err where
  | typeError : Err
  | parseError : Err
  | errorf (text : String) : Err
  | wrap (text : String) (inner : Err) : Err
  deriving DecidableEq, Repr

/-- The message of an error, as `Error()` returns it. -/
def Err.message : Err → String
  | Err.typeError => "yaml: unmarshal errors"
  | Err.parseError => "yaml: "
  | Err.errorf s => s
  | Err.wrap s e => s ++ ": " ++ e.message

/-! ## The yaml.v2 decoder on the field kinds the program uses

Each function takes the node found under the field's key (`none` when the key
is absent) and returns `none` for a type error. -/

/-- Decoding into a `string` field. -/
def decString : Option Node → Option String
  | none => some ""
  | some Node.null => some ""
  | some (Node.scalar _ s) => some s
  | some _ => none

/-- Decoding into an `interface{}` field: never a type error; the nil
interface is the null node, and any other value is kept as the node it was
decoded from, which stands for its resolved value. -/
def decIface : Option Node → Node
  | none => Node.null
  | some n => n

/-- Decoding into a struct field whose fields are decoded by `fields`. -/
def decStruct {T : Type} (zero : T) (fields : Node → Option T) : Option Node → Option T
  | none => some zero
  | some Node.null => some zero
  | some (Node.map es) => fields (Node.map es)
  | some _ => none

/-- Decoding into a `map[string]interface{}` field; `none` inside is the nil
map. -/
def decStringMap : Option Node → Option (Option (List (String × Node)))
  | none => some none
  | some Node.null => some none
  | some (Node.map es) => some (some es)
  | some _ => none

/-! ## Endpoint -/

/-- The anonymous struct type of `Endpoint.Spec`. -/
structure EndpointSpec where
  Functions : String
  UrlPathTemplate : String
  Timeouts : Option (List (String × Node))
  deriving Repr

/-- Type `Endpoint`. -/
structure Endpoint where
  Kind : String
  Spec : EndpointSpec
  deriving Repr

/-- The zero value of `Endpoint`. -/
def Endpoint.zero : Endpoint :=
  { Kind := "", Spec := { Functions := "", UrlPathTemplate := "", Timeouts := none } }

/-- The local `legacy` of `Endpoint.UnmarshalYAML`, below the `endpoint` key. -/
structure LegacyEndpoint where
  MetaKind : String
  Spec : EndpointSpec
  deriving Repr

/-- The fields of `legacy.Endpoint.Spec`. -/
def decodeEndpointSpec (n : Node) : Option EndpointSpec :=
  match decString (n.lookup "functions") with
  | none => none
  | some f =>
    match decString (n.lookup "urlPathTemplate") with
    | none => none
    | some u =>
      match decStringMap (n.lookup "timeouts") with
      | none => none
      | some t => some { Functions := f, UrlPathTemplate := u, Timeouts := t }

/-- The call `unmarshal(&legacy)` of `Endpoint.UnmarshalYAML`. -/
def decodeLegacyEndpoint (n : Node) : Option LegacyEndpoint :=
  decStruct { MetaKind := "", Spec := Endpoint.zero.Spec }
    (fun top =>
      decStruct { MetaKind := "", Spec := Endpoint.zero.Spec }
        (fun ep =>
          match decStruct "" (fun m => decString (m.lookup "kind")) (ep.lookup "meta") with
          | none => none
          | some k =>
            match decStruct Endpoint.zero.Spec decodeEndpointSpec (ep.lookup "spec") with
            | none => none
            | some s => some { MetaKind := k, Spec := s })
        (top.lookup "endpoint"))
    (some n)

/-- Method `(*Endpoint).UnmarshalYAML`: the receiver after the call and the
returned error. -/
def Endpoint.UnmarshalYAML (n : Node) (e : Endpoint) : Endpoint × Option Err :=
  match decodeLegacyEndpoint n with
  | none => (e, some (Err.wrap "failed to unmarshal legacy endpoint" Err.typeError))
  | some legacy =>
    ({ Kind := "io.statefun.endpoints.v2/http",
       Spec := { Functions := legacy.Spec.Functions,
                 UrlPathTemplate := legacy.Spec.UrlPathTemplate,
                 Timeouts := legacy.Spec.Timeouts } }, none)

/-- The encoder on the struct `Endpoint.MarshalYAML` returns: no field is
tagged `omitempty`, a nil map is emitted as the empty mapping, and the values
of the map are emitted in canonical form. -/
def encodeEndpoint (e : Endpoint) : Node :=
  Node.map
    [("kind", Node.str e.Kind),
     ("spec", Node.map
        [("functions", Node.str e.Spec.Functions),
         ("urlPathTemplate", Node.str e.Spec.UrlPathTemplate),
         ("timeouts", Node.map (canonEntries (e.Spec.Timeouts.getD [])))])]

/-- Method `(*Endpoint).MarshalYAML`: a struct with the receiver's `Kind` and
`Spec`, and a nil error. -/
def Endpoint.MarshalYAML (e : Endpoint) : Endpoint × Option Err :=
  ({ Kind := e.Kind, Spec := e.Spec }, none)

/-! ## Ingress and egress specs -/

/-- Type `KafkaIngressSpec`. -/
structure KafkaIngressSpec where
  Id : String
  Address : String
  ConsumerGroupId : String
  StartupPosition : Node
  Properties : Node
  Topics : Node
  deriving Repr

/-- Type `KinesisIngressSpec`. -/
structure KinesisIngressSpec where
  Id : String
  AwsRegion : Node
  AwsCredentials : Node
  StartupPosition : Node
  Streams : Node
  ClientConfigProperties : Node
  deriving Repr

/-- Type `KafkaEgressSpec`. -/
structure KafkaEgressSpec where
  Id : String
  Address : String
  DeliverySemantic : Node
  Properties : Node
  deriving Repr

/-- Type `KinesisEgressSpec`. -/
structure KinesisEgressSpec where
  Id : String
  AwsRegion : Node
  AwsCredentials : Node
  MaxOutstandingRecords : Node
  ClientConfigProperties : Node
  deriving Repr

/-- The dynamic value of the `Spec interface{}` field of `Ingress` and
`Egress`. -/
inductive SpecValue where
  | nil : SpecValue
  | kafkaIngress (s : KafkaIngressSpec) : SpecValue
  | kinesisIngress (s : KinesisIngressSpec) : SpecValue
  | kafkaEgress (s : KafkaEgressSpec) : SpecValue
  | kinesisEgress (s : KinesisEgressSpec) : SpecValue
  deriving Repr

/-- Type `Ingress`. -/
structure Ingress where
  Kind : String
  Spec : SpecValue
  deriving Repr

/-- Type `Egress`. -/
structure Egress where
  Kind : String
  Spec : SpecValue
  deriving Repr

/-- The zero value of `Ingress`. -/
def Ingress.zero : Ingress := { Kind := "", Spec := SpecValue.nil }

/-- The zero value of `Egress`. -/
def Egress.zero : Egress := { Kind := "", Spec := SpecValue.nil }

/-- The zero value of `KafkaIngressSpec`. -/
def KafkaIngressSpec.zero : KafkaIngressSpec :=
  { Id := "", Address := "", ConsumerGroupId := "", StartupPosition := Node.null,
    Properties := Node.null, Topics := Node.null }

/-- The zero value of `KinesisIngressSpec`. -/
def KinesisIngressSpec.zero : KinesisIngressSpec :=
  { Id := "", AwsRegion := Node.null, AwsCredentials := Node.null,
    StartupPosition := Node.null, Streams := Node.null,
    ClientConfigProperties := Node.null }

/-- The zero value of `KafkaEgressSpec`. -/
def KafkaEgressSpec.zero : KafkaEgressSpec :=
  { Id := "", Address := "", DeliverySemantic := Node.null, Properties := Node.null }

/-- The zero value of `KinesisEgressSpec`. -/
def KinesisEgressSpec.zero : KinesisEgressSpec :=
  { Id := "", AwsRegion := Node.null, AwsCredentials := Node.null,
    MaxOutstandingRecords := Node.null, ClientConfigProperties := Node.null }

/-- The fields of a `KafkaIngressSpec`, by their yaml keys. -/
def decodeKafkaIngressSpec (n : Node) : Option KafkaIngressSpec :=
  match decString (n.lookup "id") with
  | none => none
  | some id =>
    match decString (n.lookup "address") with
    | none => none
    | some a =>
      match decString (n.lookup "consumerGroupId") with
      | none => none
      | some g =>
        some { Id := id, Address := a, ConsumerGroupId := g,
               StartupPosition := decIface (n.lookup "startupPosition"),
               Properties := decIface (n.lookup "properties"),
               Topics := decIface (n.lookup "topics") }

/-- The fields of a `KinesisIngressSpec`, by their yaml keys. -/
def decodeKinesisIngressSpec (n : Node) : Option KinesisIngressSpec :=
  match decString (n.lookup "id") with
  | none => none
  | some id =>
    some { Id := id,
           AwsRegion := decIface (n.lookup "awsRegion"),
           AwsCredentials := decIface (n.lookup "awsCredentials"),
           StartupPosition := decIface (n.lookup "startupPosition"),
           Streams := decIface (n.lookup "streams"),
           ClientConfigProperties := decIface (n.lookup "clientConfigProperties") }

/-- The fields of a `KafkaEgressSpec`, by their yaml keys. -/
def decodeKafkaEgressSpec (n : Node) : Option KafkaEgressSpec :=
  match decString (n.lookup "id") with
  | none => none
  | some id =>
    match decString (n.lookup "address") with
    | none => none
    | some a =>
      some { Id := id, Address := a,
             DeliverySemantic := decIface (n.lookup "deliverySemantic"),
             Properties := decIface (n.lookup "properties") }

/-- The fields of a `KinesisEgressSpec`, by their yaml keys. -/
def decodeKinesisEgressSpec (n : Node) : Option KinesisEgressSpec :=
  match decString (n.lookup "id") with
  | none => none
  | some id =>
    some { Id := id,
           AwsRegion := decIface (n.lookup "awsRegion"),
           AwsCredentials := decIface (n.lookup "awsCredentials"),
           MaxOutstandingRecords := decIface (n.lookup "maxOutstandingRecords"),
           ClientConfigProperties := decIface (n.lookup "clientConfigProperties") }

/-- The struct `Meta` of the second-pass `legacy` values: `type` and `id`. -/
structure LegacyMeta where
  Typ : String
  Id : String
  deriving Repr

/-- The fields of a `LegacyMeta`. -/
def decodeLegacyMeta (n : Node) : Option LegacyMeta :=
  match decString (n.lookup "type") with
  | none => none
  | some t =>
    match decString (n.lookup "id") with
    | none => none
    | some id => some { Typ := t, Id := id }

/-- The first-pass local `t` of `Ingress.UnmarshalYAML` and
`Egress.UnmarshalYAML`: a struct that holds only `Meta.Type` below the key
`wrapper` (the field `Meta` has no tag, so its key is `meta`). -/
def decodeTypeProbe (wrapper : String) (n : Node) : Option String :=
  decStruct ""
    (fun top =>
      decStruct ""
        (fun w => decStruct "" (fun m => decString (m.lookup "type")) (w.lookup "meta"))
        (top.lookup wrapper))
    (some n)

/-- A second-pass local `legacy`: meta and a spec of type `S` below the key
`wrapper`. -/
def decodeLegacy {S : Type} (wrapper : String) (zero : S) (spec : Node → Option S)
    (n : Node) : Option (LegacyMeta × S) :=
  decStruct ({ Typ := "", Id := "" }, zero)
    (fun top =>
      decStruct ({ Typ := "", Id := "" }, zero)
        (fun w =>
          match decStruct { Typ := "", Id := "" } decodeLegacyMeta (w.lookup "meta") with
          | none => none
          | some m =>
            match decStruct zero spec (w.lookup "spec") with
            | none => none
            | some s => some (m, s))
        (top.lookup wrapper))
    (some n)

/-- Method `(*Ingress).UnmarshalYAML`: the receiver after the call and the
returned error. -/
def Ingress.UnmarshalYAML (n : Node) (i : Ingress) : Ingress × Option Err :=
  match decodeTypeProbe "ingress" n with
  | none => (i, some (Err.wrap "failed to unmarshal legacy ingress" Err.typeError))
  | some t =>
    if t = "io.statefun.kafka/ingress" then
      match decodeLegacy "ingress" KafkaIngressSpec.zero decodeKafkaIngressSpec n with
      | none => (i, some (Err.wrap "failed to unmarshal legacy kafka ingress" Err.typeError))
      | some legacy =>
        ({ Kind := "io.statefun.kafka.v1/ingress",
           Spec := SpecValue.kafkaIngress { legacy.2 with Id := legacy.1.Id } }, none)
    else if t = "io.statefun.kinesis/ingress" then
      match decodeLegacy "ingress" KinesisIngressSpec.zero decodeKinesisIngressSpec n with
      | none => (i, some (Err.wrap "failed to unmarshal legacy kinesis ingress" Err.typeError))
      | some legacy =>
        ({ Kind := "io.statefun.kinesis.v1/ingress",
           Spec := SpecValue.kinesisIngress { legacy.2 with Id := legacy.1.Id } }, none)
    else
      (i, some (Err.errorf ("unknown ingress type " ++ t)))

/-- Method `(*Egress).UnmarshalYAML`: the receiver after the call and the
returned error.  The case labels and the message of the default case are those
of the source. -/
def Egress.UnmarshalYAML (n : Node) (e : Egress) : Egress × Option Err :=
  match decodeTypeProbe "egress" n with
  | none => (e, some (Err.wrap "failed to unmarshal legacy egress" Err.typeError))
  | some t =>
    if t = "io.statefun.kafka/egress" then
      match decodeLegacy "egress" KafkaEgressSpec.zero decodeKafkaEgressSpec n with
      | none => (e, some (Err.wrap "failed to unmarshal legacy kafka egress" Err.typeError))
      | some legacy =>
        ({ Kind := "io.statefun.kafka.v1/egress",
           Spec := SpecValue.kafkaEgress { legacy.2 with Id := legacy.1.Id } }, none)
    else if t = "io.statefun.kinesis/ingress" then
      match decodeLegacy "egress" KinesisEgressSpec.zero decodeKinesisEgressSpec n with
      | none => (e, some (Err.wrap "failed to unmarshal legacy kinesis egress" Err.typeError))
      | some legacy =>
        ({ Kind := "io.statefun.kinesis.v1/egress",
           Spec := SpecValue.kinesisEgress { legacy.2 with Id := legacy.1.Id } }, none)
    else
      (e, some (Err.errorf ("unknown ingress type " ++ t)))

/-! ## Encoding ingress and egress components -/

/-- A field tagged `omitempty` of type `interface{}`: skipped when nil,
emitted in canonical form otherwise. -/
def omitEmpty (key : String) (v : Node) : List (String × Node) :=
  match v with
  | Node.null => []
  | _ => [(key, v.canon)]

/-- A field tagged `omitempty` of type `string`: skipped when empty. -/
def omitEmptyString (key : String) (s : String) : List (String × Node) :=
  if s = "" then [] else [(key, Node.str s)]

/-- The encoder on a `KafkaIngressSpec`. -/
def encodeKafkaIngressSpec (s : KafkaIngressSpec) : Node :=
  Node.map
    ([("id", Node.str s.Id), ("address", Node.str s.Address)]
      ++ omitEmptyString "consumerGroupId" s.ConsumerGroupId
      ++ omitEmpty "startupPosition" s.StartupPosition
      ++ omitEmpty "properties" s.Properties
      ++ [("topics", s.Topics.canon)])

/-- The encoder on a `KinesisIngressSpec`. -/
def encodeKinesisIngressSpec (s : KinesisIngressSpec) : Node :=
  Node.map
    ([("id", Node.str s.Id)]
      ++ omitEmpty "awsRegion" s.AwsRegion
      ++ omitEmpty "awsCredentials" s.AwsCredentials
      ++ omitEmpty "startupPosition" s.StartupPosition
      ++ omitEmpty "streams" s.Streams
      ++ omitEmpty "clientConfigProperties" s.ClientConfigProperties)

/-- The encoder on a `KafkaEgressSpec`. -/
def encodeKafkaEgressSpec (s : KafkaEgressSpec) : Node :=
  Node.map
    ([("id", Node.str s.Id), ("address", Node.str s.Address)]
      ++ omitEmpty "deliverySemantic" s.DeliverySemantic
      ++ omitEmpty "properties" s.Properties)

/-- The encoder on a `KinesisEgressSpec`. -/
def encodeKinesisEgressSpec (s : KinesisEgressSpec) : Node :=
  Node.map
    ([("id", Node.str s.Id)]
      ++ omitEmpty "awsRegion" s.AwsRegion
      ++ omitEmpty "awsCredentials" s.AwsCredentials
      ++ omitEmpty "maxOutstandingRecords" s.MaxOutstandingRecords
      ++ omitEmpty "clientConfigProperties" s.ClientConfigProperties)

/-- The encoder on the value of a `Spec interface{}` field: null for the nil
interface, the struct's mapping otherwise. -/
def encodeSpecValue : SpecValue → Node
  | SpecValue.nil => Node.null
  | SpecValue.kafkaIngress s => encodeKafkaIngressSpec s
  | SpecValue.kinesisIngress s => encodeKinesisIngressSpec s
  | SpecValue.kafkaEgress s => encodeKafkaEgressSpec s
  | SpecValue.kinesisEgress s => encodeKinesisEgressSpec s

/-- Method `(*Ingress).MarshalYAML`: a struct with the receiver's `Kind` and
`Spec`, and a nil error. -/
def Ingress.MarshalYAML (i : Ingress) : Ingress × Option Err :=
  ({ Kind := i.Kind, Spec := i.Spec }, none)

/-- Method `(*Egress).MarshalYAML`: a struct with the receiver's `Kind` and
`Spec`, and a nil error. -/
def Egress.MarshalYAML (e : Egress) : Egress × Option Err :=
  ({ Kind := e.Kind, Spec := e.Spec }, none)

/-- The encoder on the struct `Ingress.MarshalYAML` returns. -/
def encodeIngress (i : Ingress) : Node :=
  Node.map [("kind", Node.str i.Kind), ("spec", encodeSpecValue i.Spec)]

/-- The encoder on the struct `Egress.MarshalYAML` returns. -/
def encodeEgress (e : Egress) : Node :=
  Node.map [("kind", Node.str e.Kind), ("spec", encodeSpecValue e.Spec)]

/-! ## Module

`Module` is `[]interface{}`; `Module.UnmarshalYAML` fills it with the
addresses `&component` of the variables of its three `range` loops.  The
program is built with a Go release older than 1.22 (it imports `io/ioutil` and
yaml.v2), where a `range` clause declares one variable for the whole loop, so
the addresses taken inside one loop are all the address of the same variable.
The variables live in an explicit `Store`. -/

/-- The value of a loop variable `component`: an anonymous struct embedding
an `Endpoint`, an `Ingress` or an `Egress`. -/
inductive Component where
  | endpoint (e : Endpoint) : Component
  | ingress (i : Ingress) : Component
  | egress (e : Egress) : Component
  deriving Repr

/-- The variables whose address has been taken: cell `a` is `cells[a]`. -/
structure Store where
  cells : List Component
  deriving Repr

/-- The store with no variable. -/
def Store.empty : Store := { cells := [] }

/-- Declare a variable holding `init`; returns the store and its address. -/
def Store.alloc (σ : Store) (init : Component) : Store × Nat :=
  ({ cells := σ.cells ++ [init] }, σ.cells.length)

/-- Assign `c` to the variable at address `a`. -/
def Store.assign (σ : Store) (a : Nat) (c : Component) : Store :=
  { cells := σ.cells.set a c }

/-- The value of the variable at address `a`. -/
def Store.load (σ : Store) (a : Nat) : Option Component := σ.cells.get? a

/-- Type `Module`: a slice of pointers into the store. -/
abbrev Module := List Nat

/-- The fields of `legacy.Module.Spec`. -/
structure LegacySpec where
  Endpoints : List Endpoint
  Ingresses : List Ingress
  Egresses : List Egress
  deriving Repr

/-- The zero value of `legacy.Module.Spec`. -/
def LegacySpec.zero : LegacySpec := { Endpoints := [], Ingresses := [], Egresses := [] }

/-- The decoder on the elements of a sequence whose element type has an
`UnmarshalYAML` method: a null element stays the zero value without a call, any
other element is handed to `unmarshal` on a fresh zero value, and an error
returned by the method aborts the whole decoding. -/
def decodeElements {T : Type} (zero : T) (unmarshal : Node → T → T × Option Err) :
    List Node → Except Err (List T)
  | [] => Except.ok []
  | Node.null :: ns =>
    match decodeElements zero unmarshal ns with
    | Except.error e => Except.error e
    | Except.ok xs => Except.ok (zero :: xs)
  | n :: ns =>
    match unmarshal n zero with
    | (_, some e) => Except.error e
    | (x, none) =>
      match decodeElements zero unmarshal ns with
      | Except.error e => Except.error e
      | Except.ok xs => Except.ok (x :: xs)

/-- The decoder on a slice field, given the old value of the field and the
flag that records a type error: null resets the field, a sequence replaces it,
any other node is a type error and leaves it. -/
def decodeSlice {T : Type} (zero : T) (unmarshal : Node → T → T × Option Err)
    (old : List T) (flag : Bool) : Node → Except Err (List T × Bool)
  | Node.null => Except.ok ([], flag)
  | Node.seq items =>
    match decodeElements zero unmarshal items with
    | Except.error e => Except.error e
    | Except.ok xs => Except.ok (xs, flag)
  | _ => Except.ok (old, true)

/-- The decoder on the entries of the `module.spec` mapping, in document
order: the state is the struct filled so far and the type-error flag. -/
def decodeGroups : List (String × Node) → LegacySpec × Bool → Except Err (LegacySpec × Bool)
  | [], st => Except.ok st
  | (k, v) :: rest, st =>
    if k = "endpoints" then
      match decodeSlice Endpoint.zero Endpoint.UnmarshalYAML st.1.Endpoints st.2 v with
      | Except.error e => Except.error e
      | Except.ok r => decodeGroups rest ({ st.1 with Endpoints := r.1 }, r.2)
    else if k = "ingresses" then
      match decodeSlice Ingress.zero Ingress.UnmarshalYAML st.1.Ingresses st.2 v with
      | Except.error e => Except.error e
      | Except.ok r => decodeGroups rest ({ st.1 with Ingresses := r.1 }, r.2)
    else if k = "egresses" then
      match decodeSlice Egress.zero Egress.UnmarshalYAML st.1.Egresses st.2 v with
      | Except.error e => Except.error e
      | Except.ok r => decodeGroups rest ({ st.1 with Egresses := r.1 }, r.2)
    else decodeGroups rest st

/-- Decoding into the struct `legacy.Module.Spec`, given the node under `spec`. -/
def decodeLegacySpec : Option Node → Except Err (LegacySpec × Bool)
  | none => Except.ok (LegacySpec.zero, false)
  | some Node.null => Except.ok (LegacySpec.zero, false)
  | some (Node.map es) => decodeGroups es (LegacySpec.zero, false)
  | some _ => Except.ok (LegacySpec.zero, true)

/-- The call `unmarshal(&legacy)` of `Module.UnmarshalYAML`: an error of a
component aborts it, a type error of the module's own shape is recorded in the
flag. -/
def decodeLegacyModule : Node → Except Err (LegacySpec × Bool)
  | Node.null => Except.ok (LegacySpec.zero, false)
  | Node.map es =>
    match es.lookup "module" with
    | none => Except.ok (LegacySpec.zero, false)
    | some Node.null => Except.ok (LegacySpec.zero, false)
    | some (Node.map ms) => decodeLegacySpec (ms.lookup "spec")
    | some _ => Except.ok (LegacySpec.zero, true)
  | _ => Except.ok (LegacySpec.zero, true)

/-- One loop `for _, component := range xs { components = append(components,
&component) }`: the variable `component` is declared once, every iteration
assigns the next element to it and appends its address. -/
def rangeAppend (zero : Component) (xs : List Component) (st : Store × List Nat) :
    Store × List Nat :=
  let v := st.1.alloc zero
  xs.foldl (fun acc x => (acc.1.assign v.2 x, acc.2 ++ [v.2])) (v.1, st.2)

/-- Method `(*Module).UnmarshalYAML`: the store and the receiver after the
call, and the returned error. -/
def Module.UnmarshalYAML (n : Node) (σ : Store) (m : Module) : (Store × Module) × Option Err :=
  match decodeLegacyModule n with
  | Except.error e => ((σ, m), some (Err.wrap "failed to unmarshal module.yaml" e))
  | Except.ok (_, true) =>
    ((σ, m), some (Err.wrap "failed to unmarshal module.yaml" Err.typeError))
  | Except.ok (legacy, false) =>
    let s0 : Store × List Nat := (σ, [])
    let s1 := rangeAppend (Component.endpoint Endpoint.zero)
      (legacy.Endpoints.map Component.endpoint) s0
    let s2 := rangeAppend (Component.ingress Ingress.zero)
      (legacy.Ingresses.map Component.ingress) s1
    let s3 := rangeAppend (Component.egress Egress.zero)
      (legacy.Egresses.map Component.egress) s2
    (s3, none)

/-- The components a module points to, in order. -/
def Module.components (σ : Store) (m : Module) : List (Option Component) :=
  m.map σ.load

/-- The tree the encoder builds for `yaml.Marshal(component)`: it calls the
promoted `MarshalYAML` of the pointed-to struct and encodes the struct it
returns; a nil pointer encodes as null. -/
def encodeComponent : Option Component → Except Err Node
  | none => Except.ok Node.null
  | some (Component.endpoint e) =>
    match e.MarshalYAML with
    | (_, some err) => Except.error err
    | (v, none) => Except.ok (encodeEndpoint v)
  | some (Component.ingress i) =>
    match i.MarshalYAML with
    | (_, some err) => Except.error err
    | (v, none) => Except.ok (encodeIngress v)
  | some (Component.egress e) =>
    match e.MarshalYAML with
    | (_, some err) => Except.error err
    | (v, none) => Except.ok (encodeEgress v)

/-- The call `yaml.Marshal(component)`; `emit` is the emitter of the library,
which renders a tree as text. -/
def yamlMarshal (emit : Node → Except Err String) (c : Option Component) : Except Err String :=
  match encodeComponent c with
  | Except.error err => Except.error err
  | Except.ok n => emit n

/-- The loop of `Module.MarshalText` over the remaining components, with the
text written to the builder so far. -/
def marshalLoop (emit : Node → Except Err String) (σ : Store) :
    List Nat → String → String × Option Err
  | [], builder => (builder, none)
  | a :: rest, builder =>
    match yamlMarshal emit (σ.load a) with
    | Except.error err => ("", some err)
    | Except.ok d => marshalLoop emit σ rest (builder ++ d ++ "---\n")

/-- Method `(*Module).MarshalText`: the returned text (empty for nil) and the
returned error. -/
def Module.MarshalText (emit : Node → Except Err String) (σ : Store) (m : Module) :
    String × Option Err :=
  marshalLoop emit σ m ""

/-! ## The command -/

/-- What `readModule` and the parser of `yaml.Unmarshal` make of the input:
the input cannot be opened, cannot be read, is not YAML, holds no document, or
holds a document. -/
inductive Input where
  | openFailed (e : String) : Input
  | readFailed (e : String) : Input
  | malformed : Input
  | noDocument : Input
  | document (n : Node) : Input
  deriving Repr

/-- How a run of `convert` ends: by a panic with a message, or by returning
after the given text has been written to standard output. -/
inductive Outcome where
  | panicked (msg : String) : Outcome
  | returned (stdout : String) : Outcome
  deriving DecidableEq, Repr

/-- The call `yaml.Unmarshal(b, &module)` on a parsed document: a null root
resets the module without calling `UnmarshalYAML`. -/
def yamlUnmarshal (n : Node) (σ : Store) (m : Module) : (Store × Module) × Option Err :=
  match n with
  | Node.null => ((σ, []), none)
  | doc => Module.UnmarshalYAML doc σ m

/-- Function `convert`; `printf` is `fmt.Printf` applied to a format and no
operand.  The error of `yaml.Unmarshal` is assigned to `err` and overwritten
by the next statement, and the error of `MarshalText` is not read. -/
def convert (emit : Node → Except Err String) (printf : String → String) : Input → Outcome
  | Input.openFailed e => Outcome.panicked e
  | Input.readFailed e => Outcome.panicked ("failed to read input: " ++ e)
  | Input.malformed =>
    Outcome.returned (printf (Module.MarshalText emit Store.empty []).1)
  | Input.noDocument =>
    Outcome.returned (printf (Module.MarshalText emit Store.empty []).1)
  | Input.document n =>
    let r := yamlUnmarshal n Store.empty []
    Outcome.returned (printf (Module.MarshalText emit r.1.1 r.1.2).1)

/-! ## fmt.Printf without operands

`convert` calls `fmt.Printf(string(d))`: the text is the format and there is no
operand.  `fmtPrintf` is what `doPrintf` of package `fmt` writes in that case:
the text outside verbs is copied, `%%` writes a percent sign, and every other
verb writes an error marker. -/

/-- The flag characters after a percent sign are skipped. -/
def skipFlags : List Char → List Char
  | [] => []
  | c :: cs =>
    if c = '#' ∨ c = '0' ∨ c = '+' ∨ c = '-' ∨ c = ' ' then skipFlags cs else c :: cs

/-- Function `parsenum` on the characters up to its `end`: the number read so
far, whether a digit was read, and the characters left; a number above 10^6
gives up and consumes everything. -/
def parsenum : List Char → Nat → Bool → Nat × Bool × List Char
  | [], num, isnum => (num, isnum, [])
  | c :: cs, num, isnum =>
    if '0' ≤ c ∧ c ≤ '9' then
      if num > 1000000 then (0, false, [])
      else parsenum cs (num * 10 + (c.toNat - 48)) true
    else (num, isnum, c :: cs)

/-- Function `parseArgNumber` on characters that start with `[`: how many
characters the index takes and whether it is a well-formed `[n]`. -/
def parseArgNumber (cs : List Char) : Nat × Bool :=
  if cs.length < 3 then (1, false)
  else
    let body := cs.tail
    let seg := body.takeWhile (fun c => c ≠ ']')
    if seg.length = body.length then (1, false)
    else
      let r := parsenum seg 0 false
      if r.2.1 = true ∧ r.2.2 = [] then (seg.length + 2, true) else (seg.length + 2, false)

/-- Method `argNumber` with no operand: the characters left, whether an index
was found, and the flag `goodArgNum` (an index can never be in range). -/
def argNumber (cs : List Char) (good : Bool) : List Char × Bool × Bool :=
  match cs with
  | '[' :: _ =>
    let r := parseArgNumber cs
    (cs.drop r.1, r.2, false)
  | _ => (cs, false, good)

/-- One verb of `doPrintf`, given the characters after its percent sign: what
is written and the characters left.  A dot starts a precision only when a
character follows it; a dot that ends the format is the verb. -/
def printVerb (cs : List Char) : String × List Char :=
  let a1 := argNumber (skipFlags cs) true
  let w : String × List Char × Bool × Bool :=
    match a1.1 with
    | '*' :: r => ("%!(BADWIDTH)", r, false, a1.2.2)
    | _ =>
      let p := parsenum a1.1 0 false
      ("", p.2.2, a1.2.1, if a1.2.1 = true ∧ p.2.1 = true then false else a1.2.2)
  let pr : String × List Char × Bool × Bool :=
    match w.2.1 with
    | '.' :: c :: r0 =>
      let r := c :: r0
      let a2 := argNumber r (if w.2.2.1 = true then false else w.2.2.2)
      match a2.1 with
      | '*' :: r2 => ("%!(BADPREC)", r2, false, a2.2.2)
      | _ => ("", (parsenum a2.1 0 false).2.2, a2.2.1, a2.2.2)
    | _ => ("", w.2.1, w.2.2.1, w.2.2.2)
  let a3 : List Char × Bool × Bool :=
    if pr.2.2.1 = true then (pr.2.1, pr.2.2.1, pr.2.2.2) else argNumber pr.2.1 pr.2.2.2
  match a3.1 with
  | [] => (w.1 ++ pr.1 ++ "%!(NOVERB)", [])
  | v :: rest =>
    if v = '%' then (w.1 ++ pr.1 ++ "%", rest)
    else if a3.2.2 = false then (w.1 ++ pr.1 ++ "%!" ++ String.singleton v ++ "(BADINDEX)", rest)
    else (w.1 ++ pr.1 ++ "%!" ++ String.singleton v ++ "(MISSING)", rest)

/-- The format loop of `doPrintf`; every round consumes a percent sign, so a
fuel above the length of the format is never used up. -/
def printfLoop : Nat → List Char → String → String
  | 0, _, out => out
  | fuel + 1, cs, out =>
    match cs.dropWhile (fun c => c ≠ '%') with
    | [] => out ++ String.mk cs
    | _ :: afterPercent =>
      let r := printVerb afterPercent
      printfLoop fuel r.2 (out ++ String.mk (cs.takeWhile (fun c => c ≠ '%')) ++ r.1)

/-- What `fmt.Printf(format)` writes to standard output. -/
def fmtPrintf (format : String) : String :=
  printfLoop (format.length + 1) format.toList ""

/-! ## Vocabulary of the statements -/

/-- A position where a struct is decoded holds nothing, null or a mapping. -/
def absentOrMapping : Option Node → Bool
  | none => true
  | some Node.null => true
  | some (Node.map _) => true
  | some _ => false

/-- A position where a string is decoded holds nothing, null or a scalar. -/
def absentOrScalar : Option Node → Bool
  | none => true
  | some Node.null => true
  | some (Node.scalar _ _) => true
  | some _ => false

/-- The resolved value of an optional scalar; `none` when the node is absent,
null or not a scalar. -/
def Node.value : Option Node → Option Scalar
  | some (Node.scalar v _) => some v
  | _ => none

/-- The entries of an optional mapping node; `none` when it is absent or not a
mapping. -/
def Node.entries : Option Node → Option (List (String × Node))
  | some (Node.map es) => some es
  | _ => none

/-- Whether the node is null. -/
def Node.isNull : Node → Bool
  | Node.null => true
  | _ => false

/-- The `id` of the struct held by a `Spec` field. -/
def SpecValue.id : SpecValue → Option String
  | SpecValue.nil => none
  | SpecValue.kafkaIngress s => some s.Id
  | SpecValue.kinesisIngress s => some s.Id
  | SpecValue.kafkaEgress s => some s.Id
  | SpecValue.kinesisEgress s => some s.Id

/-- A legacy ingress (`w = "ingress"`) or egress (`w = "egress"`) document of
the shape `w.meta.type`, `w.meta.id`, `w.spec.*`: the wrapper, `meta` and `spec`
are mappings where present, `type`, `id` and a legacy `spec.id` are scalars
where present. -/
def WellFormedLegacy (w : String) (doc : Node) : Prop :=
  absentOrMapping (some doc) = true
    ∧ absentOrMapping (doc.path [w]) = true
    ∧ absentOrMapping (doc.path [w, "meta"]) = true
    ∧ absentOrScalar (doc.path [w, "meta", "type"]) = true
    ∧ absentOrScalar (doc.path [w, "meta", "id"]) = true
    ∧ absentOrMapping (doc.path [w, "spec"]) = true
    ∧ absentOrScalar (doc.path [w, "spec", "id"]) = true

/-- A well-formed legacy Kafka ingress document: in addition the string fields
`address` and `consumerGroupId` of the spec are scalars where present. -/
def WellFormedKafkaIngress (doc : Node) : Prop :=
  WellFormedLegacy "ingress" doc
    ∧ absentOrScalar (doc.path ["ingress", "spec", "address"]) = true
    ∧ absentOrScalar (doc.path ["ingress", "spec", "consumerGroupId"]) = true

/-- The keys of the fields tagged `omitempty` in the struct held by a `Spec`
field. -/
def optionalKeys : SpecValue → List String
  | SpecValue.nil => []
  | SpecValue.kafkaIngress _ => ["consumerGroupId", "startupPosition", "properties"]
  | SpecValue.kinesisIngress _ =>
    ["awsRegion", "awsCredentials", "startupPosition", "streams", "clientConfigProperties"]
  | SpecValue.kafkaEgress _ => ["deliverySemantic", "properties"]
  | SpecValue.kinesisEgress _ =>
    ["awsRegion", "awsCredentials", "maxOutstandingRecords", "clientConfigProperties"]

/-- The legacy value `v` of the optional field `k` is present and not empty:
a scalar with a non-empty text for the string field `consumerGroupId`, any
non-null node for an opaque field. -/
def PresentNonEmpty (k : String) (v : Node) : Prop :=
  if k = "consumerGroupId" then Node.text (some v) ≠ "" else v ≠ Node.null

/-- The legacy value `v` of the optional field `k` is empty for the encoder:
null, or without text for the string field `consumerGroupId`. -/
def EmptyValue (k : String) (v : Node) : Prop :=
  v = Node.null ∨ (k = "consumerGroupId" ∧ Node.text (some v) = "")

/-- The yaml keys of all fields of the struct held by a `Spec` field. -/
def fieldKeys : SpecValue → List String
  | SpecValue.nil => []
  | SpecValue.kafkaIngress _ =>
    ["id", "address", "consumerGroupId", "startupPosition", "properties", "topics"]
  | SpecValue.kinesisIngress _ =>
    ["id", "awsRegion", "awsCredentials", "startupPosition", "streams",
     "clientConfigProperties"]
  | SpecValue.kafkaEgress _ => ["id", "address", "deliverySemantic", "properties"]
  | SpecValue.kinesisEgress _ =>
    ["id", "awsRegion", "awsCredentials", "maxOutstandingRecords", "clientConfigProperties"]

/-- The legacy value `v` of the field `k` is present and not empty: a scalar
with a non-empty text for the string fields `address` and `consumerGroupId`,
any non-null node for an opaque field. -/
def PresentValue (k : String) (v : Node) : Prop :=
  if k = "address" ∨ k = "consumerGroupId" then Node.text (some v) ≠ ""
  else v ≠ Node.null

/-- The tree emitted for the legacy value `v` of the field `k`: the string of
its text for the string fields `address` and `consumerGroupId`, its canonical
form for an opaque field. -/
def emittedValue (k : String) (v : Node) : Node :=
  if k = "address" ∨ k = "consumerGroupId" then Node.str (Node.text (some v))
  else v.canon

/-- The `Kind` of a component. -/
def Component.Kind : Component → String
  | Component.endpoint e => e.Kind
  | Component.ingress i => i.Kind
  | Component.egress e => e.Kind

/-- The tree of the `Spec` of a component. -/
def Component.specNode : Component → Node
  | Component.endpoint e =>
    Node.map
      [("functions", Node.str e.Spec.Functions),
       ("urlPathTemplate", Node.str e.Spec.UrlPathTemplate),
       ("timeouts", Node.map (canonEntries (e.Spec.Timeouts.getD [])))]
  | Component.ingress i => encodeSpecValue i.Spec
  | Component.egress e => encodeSpecValue e.Spec

/-- The five canonical kinds. -/
def canonicalKinds : List String :=
  ["io.statefun.endpoints.v2/http", "io.statefun.kafka.v1/ingress",
   "io.statefun.kinesis.v1/ingress", "io.statefun.kafka.v1/egress",
   "io.statefun.kinesis.v1/egress"]

/-- The document-boundary marker. -/
def marker : String := "---\n"

/-- Segments with the marker between them. -/
def separated (ds : List String) : String := String.intercalate marker ds

/-- Segments with the marker after each of them. -/
def terminated : List String → String
  | [] => ""
  | d :: ds => d ++ marker ++ terminated ds

/-- The error of mapping the element `n` of the group `k` on a fresh value. -/
def elementError (k : String) (n : Node) : Option Err :=
  if k = "endpoints" then (Endpoint.UnmarshalYAML n Endpoint.zero).2
  else if k = "ingresses" then (Ingress.UnmarshalYAML n Ingress.zero).2
  else (Egress.UnmarshalYAML n Egress.zero).2

/-- No sequence under a key of `module.spec` has a null element. -/
def NoNullElement (doc : Node) : Prop :=
  ∀ es, doc.path ["module", "spec"] = some (Node.map es) →
    ∀ kv ∈ es, ∀ items, kv.2 = Node.seq items → Node.null ∉ items

/-- Every element of the decoded groups has a canonical kind of its group. -/
def GroupKinds (l : LegacySpec) : Prop :=
  (∀ e ∈ l.Endpoints, e.Kind = "io.statefun.endpoints.v2/http")
    ∧ (∀ i ∈ l.Ingresses,
        i.Kind = "io.statefun.kafka.v1/ingress" ∨ i.Kind = "io.statefun.kinesis.v1/ingress")
    ∧ (∀ e ∈ l.Egresses,
        e.Kind = "io.statefun.kafka.v1/egress" ∨ e.Kind = "io.statefun.kinesis.v1/egress")

/-! ## Sample documents -/

/-- An element of `endpoints`: one HTTP endpoint, without `timeouts`. -/
def sampleEndpoint : Node :=
  Node.map [("endpoint", Node.map
    [("meta", Node.map [("kind", Node.str "http")]),
     ("spec", Node.map
        [("functions", Node.str "ns/fn"),
         ("urlPathTemplate", Node.str "/a/\x7bb\x7d")])])]

/-- A second endpoint, different from `sampleEndpoint`. -/
def otherEndpoint : Node :=
  Node.map [("endpoint", Node.map
    [("meta", Node.map [("kind", Node.str "http")]),
     ("spec", Node.map
        [("functions", Node.str "ns/other"),
         ("urlPathTemplate", Node.str "/other")])])]

/-- A Kafka ingress whose legacy spec carries an `id` of its own and the
optional `properties`. -/
def sampleKafkaIngress : Node :=
  Node.map [("ingress", Node.map
    [("meta", Node.map
        [("type", Node.str "io.statefun.kafka/ingress"), ("id", Node.str "names")]),
     ("spec", Node.map
        [("id", Node.str "ignored"),
         ("address", Node.str "kafka:9092"),
         ("properties", Node.seq [Node.map [("acks", Node.str "all")]]),
         ("topics", Node.seq [Node.str "in"])])])]

/-- A Kinesis ingress. -/
def sampleKinesisIngress : Node :=
  Node.map [("ingress", Node.map
    [("meta", Node.map
        [("type", Node.str "io.statefun.kinesis/ingress"), ("id", Node.str "stream-in")]),
     ("spec", Node.map [("awsRegion", Node.str "us-west-2")])])]

/-- An ingress of a type outside the legacy vocabulary. -/
def unknownIngress : Node :=
  Node.map [("ingress", Node.map
    [("meta", Node.map
        [("type", Node.str "io.statefun.unknown/ingress"), ("id", Node.str "x")]),
     ("spec", Node.map [])])]

/-- A Kafka egress without `meta.id`. -/
def sampleKafkaEgress : Node :=
  Node.map [("egress", Node.map
    [("meta", Node.map [("type", Node.str "io.statefun.kafka/egress")]),
     ("spec", Node.map
        [("address", Node.str "kafka:9092"),
         ("deliverySemantic", Node.map [("type", Node.str "exactly-once")])])])]

/-- A Kinesis egress, typed with the legacy egress vocabulary. -/
def sampleKinesisEgress : Node :=
  Node.map [("egress", Node.map
    [("meta", Node.map
        [("type", Node.str "io.statefun.kinesis/egress"), ("id", Node.str "out")]),
     ("spec", Node.map [("awsRegion", Node.str "us-west-2")])])]

/-- An egress whose type is a string of the ingress vocabulary. -/
def ingressTypedEgress : Node :=
  Node.map [("egress", Node.map
    [("meta", Node.map
        [("type", Node.str "io.statefun.kinesis/ingress"), ("id", Node.str "out")]),
     ("spec", Node.map [("awsRegion", Node.str "us-west-2")])])]

/-- A legacy module whose spec holds the given groups. -/
def legacyModule (endpoints ingresses egresses : List Node) : Node :=
  Node.map [("module", Node.map
    [("meta", Node.map [("type", Node.str "remote")]),
     ("spec", Node.map
        [("endpoints", Node.seq endpoints),
         ("ingresses", Node.seq ingresses),
         ("egresses", Node.seq egresses)])])]

/-- A Kafka ingress with the given entries added to its legacy spec. -/
def kafkaIngressWith (extra : List (String × Node)) : Node :=
  Node.map [("ingress", Node.map
    [("meta", Node.map
        [("type", Node.str "io.statefun.kafka/ingress"), ("id", Node.str "names")]),
     ("spec", Node.map
        ([("address", Node.str "kafka:9092"), ("topics", Node.seq [Node.str "in"])]
          ++ extra))])]

/-- A Kafka ingress whose `properties` is an integer of 23 digits, which the
decoder resolves to the float64 the encoder writes `1.2345678901234568e+22`,
and whose `consumerGroupId` is the integer 123. -/
def numericKafkaIngress : Node :=
  kafkaIngressWith
    [("properties",
        Node.scalar (Scalar.float "1.2345678901234568e+22") "12345678901234567890123"),
     ("consumerGroupId", Node.scalar (Scalar.int 123) "123")]

/-- An endpoint whose URL path template holds a percent sign. -/
def percentEndpoint : Node :=
  Node.map [("endpoint", Node.map
    [("meta", Node.map [("kind", Node.str "http")]),
     ("spec", Node.map
        [("functions", Node.str "ns/fn"),
         ("urlPathTemplate", Node.str "/fn/%s")])])]

/-- The text of the component mapped from `percentEndpoint`. -/
def percentEndpointText : String :=
  "kind: io.statefun.endpoints.v2/http\nspec:\n  functions: ns/fn\n" ++
    "  urlPathTemplate: /fn/%s\n  timeouts: \x7b\x7d\n"

/-- An egress document that carries a recognized type only below an `ingress`
key. -/
def egressTypedBelowIngress : Node :=
  Node.map
    [("egress", Node.map
        [("meta", Node.map [("id", Node.str "out")]),
         ("spec", Node.map [("address", Node.str "kafka:9092")])]),
     ("ingress", Node.map
        [("meta", Node.map [("type", Node.str "io.statefun.kafka/egress")])])]

/-! ## Lemmas on the decoder and the encoder -/

/-- A string field that decodes holds the text of its node, which is a scalar where present. -/
theorem decString_some {o : Option Node} {s : String} (h : decString o = some s) :
    s = Node.text o ∧ absentOrScalar o = true := by
  cases o with
  | none => simp [decString] at h; simp [Node.text, absentOrScalar, h]
  | some n =>
    cases n <;> simp [decString] at h <;> simp [Node.text, absentOrScalar, h]

/-- A string field decodes whenever its node is a scalar where present. -/
theorem decString_of_scalar {o : Option Node} (h : absentOrScalar o = true) :
    decString o = some (Node.text o) := by
  cases o with
  | none => rfl
  | some n => cases n <;> simp [absentOrScalar] at h <;> rfl

/-- A struct that decodes is the zero value of an absent or null node, or comes from the fields of a mapping. -/
theorem decStruct_some {T : Type} {zero : T} {f : Node → Option T} {o : Option Node} {r : T}
    (h : decStruct zero f o = some r) :
    (r = zero ∧ ∀ k, o.bind (Node.lookup k) = none) ∨ (∃ es, o = some (Node.map es) ∧ f (Node.map es) = some r) := by
  cases o with
  | none => left; simp [decStruct] at h; simp [h]
  | some n =>
    cases n with
    | null => left; simp [decStruct] at h; simp [h, Node.lookup]
    | scalar t s => simp [decStruct] at h
    | seq xs => simp [decStruct] at h
    | map es => right; exact ⟨es, rfl, by simpa [decStruct] using h⟩

/-- Following a path and then one more key. -/
theorem path_snoc (ks : List String) (k : String) (n : Node) :
    Node.path (ks ++ [k]) n = (Node.path ks n).bind (Node.lookup k) := by
  induction ks generalizing n with
  | nil => simp [Node.path]
  | cons a as ih =>
    simp only [List.cons_append, Node.path]
    cases h : Node.lookup a n with
    | none => simp
    | some x => simp [ih]

/-- The first pass reads the text at `w.meta.type` when the wrappers are mappings where present. -/
theorem decodeTypeProbe_eq (w : String) (doc : Node) :
    decodeTypeProbe w doc =
      if absentOrMapping (some doc) = true ∧ absentOrMapping (doc.path [w]) = true
          ∧ absentOrMapping (doc.path [w, "meta"]) = true then
        decString (doc.path [w, "meta", "type"])
      else none := by
  cases doc with
  | null => simp [decodeTypeProbe, decStruct, absentOrMapping, Node.path, Node.lookup, decString]
  | scalar t s => simp [decodeTypeProbe, decStruct, absentOrMapping]
  | seq xs => simp [decodeTypeProbe, decStruct, absentOrMapping]
  | map es =>
    simp only [decodeTypeProbe, decStruct, absentOrMapping, Node.path, Node.lookup, true_and]
    cases h : List.lookup w es with
    | none => simp [decStruct, absentOrMapping, decString]
    | some x =>
      cases x with
      | null => simp [decStruct, absentOrMapping, decString, Node.lookup]
      | scalar t s => simp [decStruct, absentOrMapping]
      | seq xs => simp [decStruct, absentOrMapping]
      | map ws =>
        simp only [decStruct, Option.some_bind, Node.lookup, absentOrMapping, true_and]
        cases h2 : List.lookup "meta" ws with
        | none => simp [decStruct, absentOrMapping, decString]
        | some y =>
          cases y <;> simp [decStruct, absentOrMapping, decString, Node.lookup]

/-- The second pass decodes `w.meta` and `w.spec` when the wrappers are mappings where present. -/
theorem decodeLegacy_eq {S : Type} (w : String) (zero : S) (spec : Node → Option S) (doc : Node) :
    decodeLegacy w zero spec doc =
      if absentOrMapping (some doc) = true ∧ absentOrMapping (doc.path [w]) = true then
        (match decStruct { Typ := "", Id := "" } decodeLegacyMeta (doc.path [w, "meta"]) with
         | none => none
         | some m =>
           match decStruct zero spec (doc.path [w, "spec"]) with
           | none => none
           | some s => some (m, s))
      else none := by
  cases doc with
  | null => simp [decodeLegacy, decStruct, absentOrMapping, Node.path, Node.lookup]
  | scalar t s => simp [decodeLegacy, decStruct, absentOrMapping]
  | seq xs => simp [decodeLegacy, decStruct, absentOrMapping]
  | map es =>
    simp only [decodeLegacy, decStruct, absentOrMapping, Node.path, Node.lookup, true_and]
    cases h : List.lookup w es with
    | none => simp [decStruct, absentOrMapping]
    | some x =>
      cases x with
      | null => simp [decStruct, absentOrMapping, Node.lookup]
      | scalar t s => simp [decStruct, absentOrMapping]
      | seq xs => simp [decStruct, absentOrMapping]
      | map ws =>
        simp only [decStruct, Option.some_bind, Node.lookup, absentOrMapping, if_true]
        cases h2 : List.lookup "meta" ws <;> cases h3 : List.lookup "spec" ws <;> simp

/-- A path of three keys is a path of two keys and a lookup. -/
theorem path_three (a b c : String) (n : Node) :
    Node.path [a, b, c] n = (Node.path [a, b] n).bind (Node.lookup c) :=
  path_snoc [a, b] c n

/-- The parts of a second pass that succeeds. -/
theorem decodeLegacy_parts {S : Type} {w : String} {zero : S} {spec : Node → Option S}
    {doc : Node} {l : LegacyMeta × S} (h : decodeLegacy w zero spec doc = some l) :
    decStruct { Typ := "", Id := "" } decodeLegacyMeta (doc.path [w, "meta"]) = some l.1
      ∧ decStruct zero spec (doc.path [w, "spec"]) = some l.2 := by
  rw [decodeLegacy_eq] at h
  split at h
  · cases hm : decStruct { Typ := "", Id := "" } decodeLegacyMeta (doc.path [w, "meta"]) with
    | none => simp [hm] at h
    | some m =>
      cases hs : decStruct zero spec (doc.path [w, "spec"]) with
      | none => simp [hm, hs] at h
      | some s =>
        simp [hm, hs] at h
        subst h
        exact ⟨rfl, rfl⟩
  · simp at h

/-- The `Id` of a decoded meta is the text under its `id` key. -/
theorem decodeLegacyMeta_id {o : Option Node} {m : LegacyMeta}
    (h : decStruct { Typ := "", Id := "" } decodeLegacyMeta o = some m) :
    m.Id = Node.text (o.bind (Node.lookup "id")) := by
  rcases decStruct_some h with ⟨hz, hk⟩ | ⟨es, ho, hf⟩
  · rw [hk "id", hz]; rfl
  · subst ho
    simp only [decodeLegacyMeta] at hf
    cases ht : decString (Node.lookup "type" (Node.map es)) with
    | none => simp [ht] at hf
    | some t =>
      cases hi : decString (Node.lookup "id" (Node.map es)) with
      | none => simp [ht, hi] at hf
      | some id =>
        simp [ht, hi] at hf
        subst hf
        simpa using (decString_some hi).1

/-- The `Id` read by the second pass is the text at `w.meta.id`. -/
theorem legacy_meta_id {S : Type} {w : String} {zero : S} {spec : Node → Option S}
    {doc : Node} {l : LegacyMeta × S} (h : decodeLegacy w zero spec doc = some l) :
    l.1.Id = Node.text (doc.path [w, "meta", "id"]) := by
  rw [path_three]
  exact decodeLegacyMeta_id (decodeLegacy_parts h).1

/-- A map field that decodes holds the entries of its node. -/
theorem decStringMap_some {o : Option Node} {t : Option (List (String × Node))}
    (h : decStringMap o = some t) : t = Node.entries o := by
  cases o with
  | none => simp [decStringMap] at h; simp [Node.entries, h]
  | some n => cases n <;> simp [decStringMap] at h <;> simp [Node.entries, h]

/-- The spec of a decoded legacy endpoint comes from `endpoint.spec`. -/
theorem decodeLegacyEndpoint_spec {doc : Node} {l : LegacyEndpoint}
    (h : decodeLegacyEndpoint doc = some l) :
    decStruct Endpoint.zero.Spec decodeEndpointSpec (doc.path ["endpoint", "spec"]) = some l.Spec := by
  cases doc with
  | null => simp [decodeLegacyEndpoint, decStruct] at h; subst h; rfl
  | scalar t s => simp [decodeLegacyEndpoint, decStruct] at h
  | seq xs => simp [decodeLegacyEndpoint, decStruct] at h
  | map es =>
    simp only [decodeLegacyEndpoint, decStruct, Node.path, Node.lookup] at h ⊢
    cases hw : List.lookup "endpoint" es with
    | none => simp [hw, decStruct] at h; subst h; rfl
    | some x =>
      rw [hw] at h
      cases x with
      | null => simp [decStruct] at h; subst h; rfl
      | scalar t s => simp [decStruct] at h
      | seq xs => simp [decStruct] at h
      | map ws =>
        simp only [decStruct, Node.lookup] at h
        simp only [Option.some_bind, Node.lookup]
        split at h
        · simp at h
        · split at h
          · simp at h
          · next s hs =>
            simp at h
            subst h
            simpa using hs

/-- The fields of a decoded endpoint spec, by their keys. -/
theorem decodeEndpointSpec_fields {o : Option Node} {s : EndpointSpec}
    (h : decStruct Endpoint.zero.Spec decodeEndpointSpec o = some s) :
    s.Functions = Node.text (o.bind (Node.lookup "functions"))
      ∧ s.UrlPathTemplate = Node.text (o.bind (Node.lookup "urlPathTemplate"))
      ∧ s.Timeouts = Node.entries (o.bind (Node.lookup "timeouts")) := by
  rcases decStruct_some h with ⟨hz, hk⟩ | ⟨es, ho, hf⟩
  · rw [hk "functions", hk "urlPathTemplate", hk "timeouts", hz]
    exact ⟨rfl, rfl, rfl⟩
  · subst ho
    simp only [decodeEndpointSpec] at hf
    split at hf
    · simp at hf
    · next f hf1 =>
      split at hf
      · simp at hf
      · next u hu =>
        split at hf
        · simp at hf
        · next t ht =>
          simp at hf
          subst hf
          exact ⟨by simpa using (decString_some hf1).1, by simpa using (decString_some hu).1,
            by simpa using decStringMap_some ht⟩

/-- The first pass yields the text at `w.meta.type`, or fails where that text is empty. -/
theorem probe_text (w : String) (doc : Node) :
    decodeTypeProbe w doc = some (Node.text (doc.path [w, "meta", "type"]))
      ∨ (decodeTypeProbe w doc = none ∧ Node.text (doc.path [w, "meta", "type"]) = "") := by
  rw [decodeTypeProbe_eq]
  by_cases hc : absentOrMapping (some doc) = true ∧ absentOrMapping (doc.path [w]) = true
      ∧ absentOrMapping (doc.path [w, "meta"]) = true
  · rw [if_pos hc]
    cases hd : decString (doc.path [w, "meta", "type"]) with
    | some t => left; rw [(decString_some hd).1]
    | none =>
      right
      refine ⟨rfl, ?_⟩
      cases hp : doc.path [w, "meta", "type"] with
      | none => rfl
      | some n => cases n <;> simp [hp, decString] at hd <;> rfl
  · rw [if_neg hc]
    right
    refine ⟨rfl, ?_⟩
    rw [path_three]
    cases doc with
    | null => rfl
    | scalar t s => rfl
    | seq xs => rfl
    | map es =>
      simp only [Node.path, Node.lookup] at hc ⊢
      cases h : List.lookup w es with
      | none => rfl
      | some x =>
        cases x with
        | null => rfl
        | scalar t s => rfl
        | seq xs => rfl
        | map ws =>
          simp only [h, Option.some_bind, Node.lookup, absentOrMapping, true_and] at hc ⊢
          cases h2 : List.lookup "meta" ws with
          | none => rfl
          | some y => cases y <;> simp [h2, absentOrMapping] at hc <;> rfl

/-- A well-formed meta decodes. -/
theorem decodeLegacyMeta_ok {o : Option Node} (hm : absentOrMapping o = true)
    (ht : absentOrScalar (o.bind (Node.lookup "type")) = true)
    (hi : absentOrScalar (o.bind (Node.lookup "id")) = true) :
    ∃ m, decStruct { Typ := "", Id := "" } decodeLegacyMeta o = some m := by
  cases o with
  | none => exact ⟨_, rfl⟩
  | some n =>
    cases n with
    | null => exact ⟨_, rfl⟩
    | scalar t s => simp [absentOrMapping] at hm
    | seq xs => simp [absentOrMapping] at hm
    | map es =>
      simp only [Option.some_bind] at ht hi
      simp [decStruct, decodeLegacyMeta, decString_of_scalar ht, decString_of_scalar hi]

/-- A well-formed Kafka ingress spec decodes, with its address and topics. -/
theorem decodeKafkaIngressSpec_ok {o : Option Node} (hm : absentOrMapping o = true)
    (hid : absentOrScalar (o.bind (Node.lookup "id")) = true)
    (ha : absentOrScalar (o.bind (Node.lookup "address")) = true)
    (hg : absentOrScalar (o.bind (Node.lookup "consumerGroupId")) = true) :
    ∃ s, decStruct KafkaIngressSpec.zero decodeKafkaIngressSpec o = some s
      ∧ s.Address = Node.text (o.bind (Node.lookup "address"))
      ∧ s.Topics = (o.bind (Node.lookup "topics")).getD Node.null := by
  cases o with
  | none => exact ⟨_, rfl, rfl, rfl⟩
  | some n =>
    cases n with
    | null => exact ⟨_, rfl, rfl, rfl⟩
    | scalar t s => simp [absentOrMapping] at hm
    | seq xs => simp [absentOrMapping] at hm
    | map es =>
      simp only [Option.some_bind] at hid ha hg
      refine ⟨{ Id := Node.text (Node.lookup "id" (Node.map es)),
                Address := Node.text (Node.lookup "address" (Node.map es)),
                ConsumerGroupId := Node.text (Node.lookup "consumerGroupId" (Node.map es)),
                StartupPosition := decIface (Node.lookup "startupPosition" (Node.map es)),
                Properties := decIface (Node.lookup "properties" (Node.map es)),
                Topics := decIface (Node.lookup "topics" (Node.map es)) }, ?_, ?_, ?_⟩
      · simp only [decStruct, decodeKafkaIngressSpec, decString_of_scalar hid,
          decString_of_scalar ha, decString_of_scalar hg]
      · rfl
      · simp only [Option.some_bind, decIface]
        cases Node.lookup "topics" (Node.map es) <;> rfl

/-- A well-formed Kinesis ingress spec decodes. -/
theorem decodeKinesisIngressSpec_ok {o : Option Node} (hm : absentOrMapping o = true)
    (hid : absentOrScalar (o.bind (Node.lookup "id")) = true) :
    ∃ s, decStruct KinesisIngressSpec.zero decodeKinesisIngressSpec o = some s := by
  cases o with
  | none => exact ⟨_, rfl⟩
  | some n =>
    cases n with
    | null => exact ⟨_, rfl⟩
    | scalar t s => simp [absentOrMapping] at hm
    | seq xs => simp [absentOrMapping] at hm
    | map es =>
      simp only [Option.some_bind] at hid
      simp only [decStruct, decodeKinesisIngressSpec, decString_of_scalar hid]
      exact ⟨_, rfl⟩

/-- The second pass succeeds on a well-formed document whose spec decodes. -/
theorem decodeLegacy_ok {S : Type} {w : String} {zero : S} {spec : Node → Option S} {doc : Node}
    (hw : WellFormedLegacy w doc) {s : S}
    (hs : decStruct zero spec (doc.path [w, "spec"]) = some s) :
    ∃ m, decodeLegacy w zero spec doc = some (m, s) := by
  obtain ⟨h1, h2, h3, h4, h5, _, _⟩ := hw
  rw [path_three] at h4 h5
  obtain ⟨m, hm⟩ := decodeLegacyMeta_ok h3 h4 h5
  exact ⟨m, by rw [decodeLegacy_eq, if_pos ⟨h1, h2⟩, hm, hs]⟩

/-- An opaque field holds its node, or null when the key is absent. -/
theorem decIface_eq (o : Option Node) : decIface o = o.getD Node.null := by
  cases o <;> rfl

/-- Looking a key up behind an opaque `omitempty` field. -/
theorem lookup_omitEmpty_append (k key : String) (v : Node) (rest : List (String × Node)) :
    List.lookup k (omitEmpty key v ++ rest)
      = if k = key ∧ v.isNull = false then some v.canon else List.lookup k rest := by
  by_cases hk : k = key
  · cases v <;> simp [omitEmpty, Node.isNull, List.lookup, hk]
  · have hb : (k == key) = false := by simpa using hk
    cases v <;> simp [omitEmpty, Node.isNull, List.lookup, hk, hb]

/-- Looking a key up in an opaque `omitempty` field alone. -/
theorem lookup_omitEmpty (k key : String) (v : Node) :
    List.lookup k (omitEmpty key v)
      = if k = key ∧ v.isNull = false then some v.canon else none := by
  have h := lookup_omitEmpty_append k key v []
  simpa using h

/-- Looking a key up behind a string `omitempty` field. -/
theorem lookup_omitEmptyString_append (k key : String) (s : String)
    (rest : List (String × Node)) :
    List.lookup k (omitEmptyString key s ++ rest)
      = if k = key ∧ s ≠ "" then some (Node.str s) else List.lookup k rest := by
  by_cases hk : k = key
  · by_cases hs : s = "" <;> simp [omitEmptyString, List.lookup, hk, hs]
  · have hb : (k == key) = false := by simpa using hk
    by_cases hs : s = "" <;> simp [omitEmptyString, List.lookup, hk, hb, hs]

/-- A node other than null is not null. -/
theorem isNull_false_of_ne {v : Node} (h : v ≠ Node.null) : v.isNull = false := by
  cases v <;> simp [Node.isNull] at h ⊢

/-- The optional fields of a decoded Kafka ingress spec, by their keys. -/
theorem decodeKafkaIngressSpec_fields {o : Option Node} {s : KafkaIngressSpec}
    (h : decStruct KafkaIngressSpec.zero decodeKafkaIngressSpec o = some s) :
    s.ConsumerGroupId = Node.text (o.bind (Node.lookup "consumerGroupId"))
      ∧ s.StartupPosition = (o.bind (Node.lookup "startupPosition")).getD Node.null
      ∧ s.Properties = (o.bind (Node.lookup "properties")).getD Node.null := by
  rcases decStruct_some h with ⟨hz, hk⟩ | ⟨es, ho, hf⟩
  · rw [hk "consumerGroupId", hk "startupPosition", hk "properties", hz]
    exact ⟨rfl, rfl, rfl⟩
  · subst ho
    simp only [decodeKafkaIngressSpec] at hf
    split at hf
    · simp at hf
    · split at hf
      · simp at hf
      · split at hf
        · simp at hf
        · next g hg =>
          simp at hf
          subst hf
          exact ⟨by simpa using (decString_some hg).1, by simp [decIface_eq], by simp [decIface_eq]⟩

/-- The optional fields of a decoded Kinesis ingress spec, by their keys. -/
theorem decodeKinesisIngressSpec_fields {o : Option Node} {s : KinesisIngressSpec}
    (h : decStruct KinesisIngressSpec.zero decodeKinesisIngressSpec o = some s) :
    s.AwsRegion = (o.bind (Node.lookup "awsRegion")).getD Node.null
      ∧ s.AwsCredentials = (o.bind (Node.lookup "awsCredentials")).getD Node.null
      ∧ s.StartupPosition = (o.bind (Node.lookup "startupPosition")).getD Node.null
      ∧ s.Streams = (o.bind (Node.lookup "streams")).getD Node.null
      ∧ s.ClientConfigProperties
          = (o.bind (Node.lookup "clientConfigProperties")).getD Node.null := by
  rcases decStruct_some h with ⟨hz, hk⟩ | ⟨es, ho, hf⟩
  · rw [hk "awsRegion", hk "awsCredentials", hk "startupPosition", hk "streams",
      hk "clientConfigProperties", hz]
    exact ⟨rfl, rfl, rfl, rfl, rfl⟩
  · subst ho
    simp only [decodeKinesisIngressSpec] at hf
    split at hf
    · simp at hf
    · simp at hf
      subst hf
      simp [decIface_eq]

/-- The optional fields of a decoded Kafka egress spec, by their keys. -/
theorem decodeKafkaEgressSpec_fields {o : Option Node} {s : KafkaEgressSpec}
    (h : decStruct KafkaEgressSpec.zero decodeKafkaEgressSpec o = some s) :
    s.DeliverySemantic = (o.bind (Node.lookup "deliverySemantic")).getD Node.null
      ∧ s.Properties = (o.bind (Node.lookup "properties")).getD Node.null := by
  rcases decStruct_some h with ⟨hz, hk⟩ | ⟨es, ho, hf⟩
  · rw [hk "deliverySemantic", hk "properties", hz]
    exact ⟨rfl, rfl⟩
  · subst ho
    simp only [decodeKafkaEgressSpec] at hf
    split at hf
    · simp at hf
    · split at hf
      · simp at hf
      · simp at hf
        subst hf
        simp [decIface_eq]

/-- The optional fields of a decoded Kinesis egress spec, by their keys. -/
theorem decodeKinesisEgressSpec_fields {o : Option Node} {s : KinesisEgressSpec}
    (h : decStruct KinesisEgressSpec.zero decodeKinesisEgressSpec o = some s) :
    s.AwsRegion = (o.bind (Node.lookup "awsRegion")).getD Node.null
      ∧ s.AwsCredentials = (o.bind (Node.lookup "awsCredentials")).getD Node.null
      ∧ s.MaxOutstandingRecords
          = (o.bind (Node.lookup "maxOutstandingRecords")).getD Node.null
      ∧ s.ClientConfigProperties
          = (o.bind (Node.lookup "clientConfigProperties")).getD Node.null := by
  rcases decStruct_some h with ⟨hz, hk⟩ | ⟨es, ho, hf⟩
  · rw [hk "awsRegion", hk "awsCredentials", hk "maxOutstandingRecords",
      hk "clientConfigProperties", hz]
    exact ⟨rfl, rfl, rfl, rfl⟩
  · subst ho
    simp only [decodeKinesisEgressSpec] at hf
    split at hf
    · simp at hf
    · simp at hf
      subst hf
      simp [decIface_eq]

/-- An opaque optional field: absent stays absent, non-null is emitted in
canonical form. -/
theorem opaque_field_round {o : Option Node} {f : Node} (hf : f = o.getD Node.null) :
    (o = none → (if f.isNull = false then some f.canon else none) = none)
      ∧ (∀ v, o = some v → v ≠ Node.null →
          (if f.isNull = false then some f.canon else none) = some v.canon) := by
  constructor
  · intro h; subst h; subst hf; rfl
  · intro v h hv; subst h; subst hf
    simp [isNull_false_of_ne hv]

/-- The path `spec.k` of an encoded ingress is key `k` of its encoded spec. -/
theorem encodeIngress_spec_path (i : Ingress) (k : String) :
    (encodeIngress i.MarshalYAML.1).path ["spec", k] = (encodeSpecValue i.Spec).lookup k := by
  simp only [encodeIngress, Ingress.MarshalYAML, Node.path, Node.lookup, List.lookup]
  have h1 : ("spec" == "kind") = false := by decide
  have h2 : ("spec" == "spec") = true := by decide
  simp [h1, h2]

/-- The path `spec.k` of an encoded egress is key `k` of its encoded spec. -/
theorem encodeEgress_spec_path (e : Egress) (k : String) :
    (encodeEgress e.MarshalYAML.1).path ["spec", k] = (encodeSpecValue e.Spec).lookup k := by
  simp only [encodeEgress, Egress.MarshalYAML, Node.path, Node.lookup, List.lookup]
  have h1 : ("spec" == "kind") = false := by decide
  have h2 : ("spec" == "spec") = true := by decide
  simp [h1, h2]

/-- A string optional field: absent stays absent, a non-empty text is emitted
as a string. -/
theorem text_field_round {o : Option Node} {f : String} (hf : f = Node.text o) :
    (o = none → (if f ≠ "" then some (Node.str f) else none) = none)
      ∧ (∀ v, o = some v → Node.text (some v) ≠ "" →
          (if f ≠ "" then some (Node.str f) else none)
            = some (Node.str (Node.text (some v)))) := by
  constructor
  · intro h; subst h; subst hf; rfl
  · intro v h hv
    subst h; subst hf
    simp [hv]

/-- Optional fields of a Kafka ingress through decoding and encoding. -/
theorem kafkaIngress_optional {o : Option Node} {s : KafkaIngressSpec}
    (h : decStruct KafkaIngressSpec.zero decodeKafkaIngressSpec o = some s) (id k : String)
    (hk : k ∈ optionalKeys (SpecValue.kafkaIngress s)) :
    (o.bind (Node.lookup k) = none →
        (encodeKafkaIngressSpec { s with Id := id }).lookup k = none)
      ∧ (∀ v, o.bind (Node.lookup k) = some v → PresentNonEmpty k v →
        (encodeKafkaIngressSpec { s with Id := id }).lookup k = some (emittedValue k v)) := by
  obtain ⟨hg, hp, hr⟩ := decodeKafkaIngressSpec_fields h
  simp only [optionalKeys, List.mem_cons, List.mem_singleton, List.not_mem_nil, or_false] at hk
  simp only [encodeKafkaIngressSpec, Node.lookup, List.append_assoc, List.cons_append,
    List.nil_append, List.lookup_cons, lookup_omitEmptyString_append, lookup_omitEmpty_append]
  rcases hk with rfl | rfl | rfl
  · have := text_field_round hg
    simpa [PresentNonEmpty, emittedValue] using this
  · have := opaque_field_round hp
    simpa [PresentNonEmpty, emittedValue] using this
  · have := opaque_field_round hr
    simpa [PresentNonEmpty, emittedValue] using this

/-- Optional fields of a Kinesis ingress through decoding and encoding. -/
theorem kinesisIngress_optional {o : Option Node} {s : KinesisIngressSpec}
    (h : decStruct KinesisIngressSpec.zero decodeKinesisIngressSpec o = some s) (id k : String)
    (hk : k ∈ optionalKeys (SpecValue.kinesisIngress s)) :
    (o.bind (Node.lookup k) = none →
        (encodeKinesisIngressSpec { s with Id := id }).lookup k = none)
      ∧ (∀ v, o.bind (Node.lookup k) = some v → PresentNonEmpty k v →
        (encodeKinesisIngressSpec { s with Id := id }).lookup k = some (emittedValue k v)) := by
  obtain ⟨h1, h2, h3, h4, h5⟩ := decodeKinesisIngressSpec_fields h
  simp only [optionalKeys, List.mem_cons, List.mem_singleton, List.not_mem_nil, or_false] at hk
  simp only [encodeKinesisIngressSpec, Node.lookup, List.append_assoc, List.cons_append,
    List.nil_append, List.lookup_cons, lookup_omitEmpty, lookup_omitEmpty_append]
  rcases hk with rfl | rfl | rfl | rfl | rfl
  · simpa [PresentNonEmpty, emittedValue] using opaque_field_round h1
  · simpa [PresentNonEmpty, emittedValue] using opaque_field_round h2
  · simpa [PresentNonEmpty, emittedValue] using opaque_field_round h3
  · simpa [PresentNonEmpty, emittedValue] using opaque_field_round h4
  · simpa [PresentNonEmpty, emittedValue] using opaque_field_round h5

/-- Optional fields of a Kafka egress through decoding and encoding. -/
theorem kafkaEgress_optional {o : Option Node} {s : KafkaEgressSpec}
    (h : decStruct KafkaEgressSpec.zero decodeKafkaEgressSpec o = some s) (id k : String)
    (hk : k ∈ optionalKeys (SpecValue.kafkaEgress s)) :
    (o.bind (Node.lookup k) = none →
        (encodeKafkaEgressSpec { s with Id := id }).lookup k = none)
      ∧ (∀ v, o.bind (Node.lookup k) = some v → PresentNonEmpty k v →
        (encodeKafkaEgressSpec { s with Id := id }).lookup k = some (emittedValue k v)) := by
  obtain ⟨h1, h2⟩ := decodeKafkaEgressSpec_fields h
  simp only [optionalKeys, List.mem_cons, List.mem_singleton, List.not_mem_nil, or_false] at hk
  simp only [encodeKafkaEgressSpec, Node.lookup, List.append_assoc, List.cons_append,
    List.nil_append, List.lookup_cons, lookup_omitEmpty, lookup_omitEmpty_append]
  rcases hk with rfl | rfl
  · simpa [PresentNonEmpty, emittedValue] using opaque_field_round h1
  · simpa [PresentNonEmpty, emittedValue] using opaque_field_round h2

/-- Optional fields of a Kinesis egress through decoding and encoding. -/
theorem kinesisEgress_optional {o : Option Node} {s : KinesisEgressSpec}
    (h : decStruct KinesisEgressSpec.zero decodeKinesisEgressSpec o = some s) (id k : String)
    (hk : k ∈ optionalKeys (SpecValue.kinesisEgress s)) :
    (o.bind (Node.lookup k) = none →
        (encodeKinesisEgressSpec { s with Id := id }).lookup k = none)
      ∧ (∀ v, o.bind (Node.lookup k) = some v → PresentNonEmpty k v →
        (encodeKinesisEgressSpec { s with Id := id }).lookup k = some (emittedValue k v)) := by
  obtain ⟨h1, h2, h3, h4⟩ := decodeKinesisEgressSpec_fields h
  simp only [optionalKeys, List.mem_cons, List.mem_singleton, List.not_mem_nil, or_false] at hk
  simp only [encodeKinesisEgressSpec, Node.lookup, List.append_assoc, List.cons_append,
    List.nil_append, List.lookup_cons, lookup_omitEmpty, lookup_omitEmpty_append]
  rcases hk with rfl | rfl | rfl | rfl
  · simpa [PresentNonEmpty, emittedValue] using opaque_field_round h1
  · simpa [PresentNonEmpty, emittedValue] using opaque_field_round h2
  · simpa [PresentNonEmpty, emittedValue] using opaque_field_round h3
  · simpa [PresentNonEmpty, emittedValue] using opaque_field_round h4

/-! ## The claims -/

/-- C1 (the code departs from the claim).  The Kinesis egress of scenario C is
a well-formed legacy egress document whose `egress.meta.type` is
`io.statefun.kinesis/egress`, and `Egress.UnmarshalYAML` rejects it as an
unknown type, leaving the receiver untouched: its second case label is the
ingress string `io.statefun.kinesis/ingress`. -/
theorem egress_kinesis_type_rejected :
    WellFormedLegacy "egress" sampleKinesisEgress
      ∧ Node.text (sampleKinesisEgress.path ["egress", "meta", "type"])
          = "io.statefun.kinesis/egress"
      ∧ Egress.UnmarshalYAML sampleKinesisEgress Egress.zero
          = (Egress.zero,
             some (Err.errorf "unknown ingress type io.statefun.kinesis/egress")) :=
  ⟨⟨rfl, rfl, rfl, rfl, rfl, rfl, rfl⟩, rfl, rfl⟩

/-- C2 (the code departs from the claim).  A module with two different
endpoints decodes without error, and both pointers of the built `Module` lead
to the mapping of the second endpoint: the two addresses are the address of
the one loop variable. -/
theorem module_two_endpoints_aliased :
    (Endpoint.UnmarshalYAML sampleEndpoint Endpoint.zero).2 = none
      ∧ (Endpoint.UnmarshalYAML otherEndpoint Endpoint.zero).2 = none
      ∧ (Endpoint.UnmarshalYAML sampleEndpoint Endpoint.zero).1.Spec.Functions = "ns/fn"
      ∧ (Endpoint.UnmarshalYAML otherEndpoint Endpoint.zero).1.Spec.Functions = "ns/other"
      ∧ (Module.UnmarshalYAML (legacyModule [sampleEndpoint, otherEndpoint] [] [])
            Store.empty []).2 = none
      ∧ Module.components
          (Module.UnmarshalYAML (legacyModule [sampleEndpoint, otherEndpoint] [] [])
            Store.empty []).1.1
          (Module.UnmarshalYAML (legacyModule [sampleEndpoint, otherEndpoint] [] [])
            Store.empty []).1.2
        = [some (Component.endpoint (Endpoint.UnmarshalYAML otherEndpoint Endpoint.zero).1),
           some (Component.endpoint (Endpoint.UnmarshalYAML otherEndpoint Endpoint.zero).1)] :=
  ⟨rfl, rfl, rfl, rfl, rfl, rfl⟩

/-- C3 (the code departs from the claim).  On the module of scenario D, whose
ingress has the type `io.statefun.unknown/ingress`, `yaml.Unmarshal` returns
the unknown-type error, and `convert` nevertheless returns normally after
printing the text of the empty module. -/
theorem convert_discards_unmarshal_error (emit : Node → Except Err String)
    (printf : String → String) :
    (yamlUnmarshal (legacyModule [sampleEndpoint] [unknownIngress] []) Store.empty []).2
        = some (Err.wrap "failed to unmarshal module.yaml"
            (Err.errorf "unknown ingress type io.statefun.unknown/ingress"))
      ∧ convert emit printf (Input.document (legacyModule [sampleEndpoint] [unknownIngress] []))
        = Outcome.returned (printf "") :=
  ⟨rfl, rfl⟩

/-- C4.  Whenever `Ingress.UnmarshalYAML` or `Egress.UnmarshalYAML` succeeds,
the `Id` of the canonical spec is the text at `meta.id` of the legacy
document, whatever the legacy spec holds under `id`; it is empty when
`meta.id` is absent. -/
theorem meta_id_becomes_spec_id (doc : Node) :
    (∀ i0 i : Ingress, Ingress.UnmarshalYAML doc i0 = (i, none) →
        i.Spec.id = some (Node.text (doc.path ["ingress", "meta", "id"])))
    ∧ (∀ e0 e : Egress, Egress.UnmarshalYAML doc e0 = (e, none) →
        e.Spec.id = some (Node.text (doc.path ["egress", "meta", "id"]))) := by
  constructor
  · intro i0 i h
    unfold Ingress.UnmarshalYAML at h
    split at h
    · simp at h
    · split at h
      · split at h
        · simp at h
        · next legacy hl =>
          simp only [Prod.mk.injEq, and_true] at h
          subst h
          simp [SpecValue.id, legacy_meta_id hl]
      · split at h
        · split at h
          · simp at h
          · next legacy hl =>
            simp only [Prod.mk.injEq, and_true] at h
            subst h
            simp [SpecValue.id, legacy_meta_id hl]
        · simp at h
  · intro e0 e h
    unfold Egress.UnmarshalYAML at h
    split at h
    · simp at h
    · split at h
      · split at h
        · simp at h
        · next legacy hl =>
          simp only [Prod.mk.injEq, and_true] at h
          subst h
          simp [SpecValue.id, legacy_meta_id hl]
      · split at h
        · split at h
          · simp at h
          · next legacy hl =>
            simp only [Prod.mk.injEq, and_true] at h
            subst h
            simp [SpecValue.id, legacy_meta_id hl]
        · simp at h

/-- Witness of C4: a Kafka ingress whose legacy spec has an `id` of its own,
and a Kafka egress without `meta.id`. -/
theorem meta_id_becomes_spec_id_witness :
    (Ingress.UnmarshalYAML sampleKafkaIngress Ingress.zero).2 = none
      ∧ sampleKafkaIngress.path ["ingress", "spec", "id"] = some (Node.str "ignored")
      ∧ (Ingress.UnmarshalYAML sampleKafkaIngress Ingress.zero).1.Spec.id = some "names"
      ∧ (Egress.UnmarshalYAML sampleKafkaEgress Egress.zero).2 = none
      ∧ sampleKafkaEgress.path ["egress", "meta", "id"] = none
      ∧ (Egress.UnmarshalYAML sampleKafkaEgress Egress.zero).1.Spec.id = some "" :=
  ⟨rfl, rfl, (meta_id_becomes_spec_id sampleKafkaIngress).1 Ingress.zero _ rfl,
   rfl, rfl, (meta_id_becomes_spec_id sampleKafkaEgress).2 Egress.zero _ rfl⟩

/-- C5.  On a well-formed legacy ingress document of type
`io.statefun.kafka/ingress`, `Ingress.UnmarshalYAML` succeeds with the kind
`io.statefun.kafka.v1/ingress` and a Kafka ingress spec whose address and
topics are the legacy ones; on one of type `io.statefun.kinesis/ingress` it
succeeds with the kind `io.statefun.kinesis.v1/ingress` and a Kinesis ingress
spec. -/
theorem ingress_known_types_map (doc : Node) (i0 : Ingress) :
    (WellFormedKafkaIngress doc →
      Node.text (doc.path ["ingress", "meta", "type"]) = "io.statefun.kafka/ingress" →
      ∃ s, Ingress.UnmarshalYAML doc i0
            = ({ Kind := "io.statefun.kafka.v1/ingress", Spec := SpecValue.kafkaIngress s }, none)
        ∧ s.Address = Node.text (doc.path ["ingress", "spec", "address"])
        ∧ s.Topics = (doc.path ["ingress", "spec", "topics"]).getD Node.null)
    ∧ (WellFormedLegacy "ingress" doc →
      Node.text (doc.path ["ingress", "meta", "type"]) = "io.statefun.kinesis/ingress" →
      ∃ s, Ingress.UnmarshalYAML doc i0
            = ({ Kind := "io.statefun.kinesis.v1/ingress",
                 Spec := SpecValue.kinesisIngress s }, none)) := by
  constructor
  · intro hwf ht
    obtain ⟨hw, ha, hg⟩ := hwf
    have hp : decodeTypeProbe "ingress" doc = some "io.statefun.kafka/ingress" := by
      rcases probe_text "ingress" doc with hp | ⟨_, he⟩
      · rw [hp, ht]
      · rw [ht] at he; exact absurd he (by decide)
    have hid := hw.2.2.2.2.2.2
    have hsm := hw.2.2.2.2.2.1
    rw [path_three] at hid ha hg
    obtain ⟨s, hs, hsa, hst⟩ := decodeKafkaIngressSpec_ok hsm hid ha hg
    obtain ⟨m, hl⟩ := decodeLegacy_ok hw hs
    refine ⟨{ s with Id := m.Id }, ?_, ?_, ?_⟩
    · unfold Ingress.UnmarshalYAML
      simp only [hp, hl, if_true]
    · rw [path_three]; exact hsa
    · rw [path_three]; exact hst
  · intro hw ht
    have hp : decodeTypeProbe "ingress" doc = some "io.statefun.kinesis/ingress" := by
      rcases probe_text "ingress" doc with hp | ⟨_, he⟩
      · rw [hp, ht]
      · rw [ht] at he; exact absurd he (by decide)
    have hid := hw.2.2.2.2.2.2
    have hsm := hw.2.2.2.2.2.1
    rw [path_three] at hid
    obtain ⟨s, hs⟩ := decodeKinesisIngressSpec_ok hsm hid
    obtain ⟨m, hl⟩ := decodeLegacy_ok hw hs
    refine ⟨{ s with Id := m.Id }, ?_⟩
    unfold Ingress.UnmarshalYAML
    have hne : ¬ ("io.statefun.kinesis/ingress" = "io.statefun.kafka/ingress") := by decide
    simp only [hp, hl, if_neg hne, if_true]

/-- Witness of C5: the Kafka ingress of scenario B and a Kinesis ingress. -/
theorem ingress_known_types_map_witness :
    (WellFormedKafkaIngress sampleKafkaIngress
      ∧ ∃ s, Ingress.UnmarshalYAML sampleKafkaIngress Ingress.zero
            = ({ Kind := "io.statefun.kafka.v1/ingress", Spec := SpecValue.kafkaIngress s }, none)
        ∧ s.Address = "kafka:9092"
        ∧ s.Topics = Node.seq [Node.str "in"])
    ∧ (WellFormedLegacy "ingress" sampleKinesisIngress
      ∧ ∃ s, Ingress.UnmarshalYAML sampleKinesisIngress Ingress.zero
            = ({ Kind := "io.statefun.kinesis.v1/ingress",
                 Spec := SpecValue.kinesisIngress s }, none)) :=
  ⟨⟨⟨⟨rfl, rfl, rfl, rfl, rfl, rfl, rfl⟩, rfl, rfl⟩,
    (ingress_known_types_map sampleKafkaIngress Ingress.zero).1
      ⟨⟨rfl, rfl, rfl, rfl, rfl, rfl, rfl⟩, rfl, rfl⟩ rfl⟩,
   ⟨⟨rfl, rfl, rfl, rfl, rfl, rfl, rfl⟩,
    (ingress_known_types_map sampleKinesisIngress Ingress.zero).2
      ⟨rfl, rfl, rfl, rfl, rfl, rfl, rfl⟩ rfl⟩⟩

/-- C6.  When the text at `ingress.meta.type` is neither
`io.statefun.kafka/ingress` nor `io.statefun.kinesis/ingress` (it is empty when
the type is absent), `Ingress.UnmarshalYAML` returns an error and leaves the
receiver as it was; the message of the error contains that text, and the
error is `unknown ingress type <text>` whenever the wrapper, `meta` and the
type have the legacy shape. -/
theorem ingress_unknown_type_rejected (doc : Node) (i : Ingress)
    (hkafka : Node.text (doc.path ["ingress", "meta", "type"]) ≠ "io.statefun.kafka/ingress")
    (hkinesis : Node.text (doc.path ["ingress", "meta", "type"]) ≠ "io.statefun.kinesis/ingress") :
    ∃ err, Ingress.UnmarshalYAML doc i = (i, some err)
      ∧ (∃ pre post, err.message = pre ++ Node.text (doc.path ["ingress", "meta", "type"]) ++ post)
      ∧ (absentOrMapping (some doc) = true
          ∧ absentOrMapping (doc.path ["ingress"]) = true
          ∧ absentOrMapping (doc.path ["ingress", "meta"]) = true
          ∧ absentOrScalar (doc.path ["ingress", "meta", "type"]) = true →
          err = Err.errorf ("unknown ingress type "
            ++ Node.text (doc.path ["ingress", "meta", "type"]))) := by
  rcases probe_text "ingress" doc with hp | ⟨hp, ht⟩
  · refine ⟨Err.errorf ("unknown ingress type "
      ++ Node.text (doc.path ["ingress", "meta", "type"])), ?_, ?_, fun _ => rfl⟩
    · unfold Ingress.UnmarshalYAML
      simp only [hp, if_neg hkafka, if_neg hkinesis]
    · exact ⟨"unknown ingress type ", "", by simp [Err.message]⟩
  · refine ⟨Err.wrap "failed to unmarshal legacy ingress" Err.typeError, ?_, ?_, ?_⟩
    · unfold Ingress.UnmarshalYAML
      simp only [hp]
    · exact ⟨"failed to unmarshal legacy ingress: yaml: unmarshal errors", "", by rw [ht]; rfl⟩
    · intro hwf
      obtain ⟨h1, h2, h3, h4⟩ := hwf
      rw [decodeTypeProbe_eq, if_pos ⟨h1, h2, h3⟩, decString_of_scalar h4] at hp
      simp at hp

/-- Witness of C6: the ingress of scenario D, on a receiver that already holds
a kind. -/
theorem ingress_unknown_type_rejected_witness :
    Node.text (unknownIngress.path ["ingress", "meta", "type"]) ≠ "io.statefun.kafka/ingress"
      ∧ Node.text (unknownIngress.path ["ingress", "meta", "type"])
          ≠ "io.statefun.kinesis/ingress"
      ∧ ∃ err, Ingress.UnmarshalYAML unknownIngress { Kind := "before", Spec := SpecValue.nil }
            = ({ Kind := "before", Spec := SpecValue.nil }, some err)
        ∧ (∃ pre post, err.message = pre ++ "io.statefun.unknown/ingress" ++ post)
        ∧ (absentOrMapping (some unknownIngress) = true
            ∧ absentOrMapping (unknownIngress.path ["ingress"]) = true
            ∧ absentOrMapping (unknownIngress.path ["ingress", "meta"]) = true
            ∧ absentOrScalar (unknownIngress.path ["ingress", "meta", "type"]) = true →
            err = Err.errorf "unknown ingress type io.statefun.unknown/ingress") :=
  ⟨by decide, by decide,
   ingress_unknown_type_rejected unknownIngress { Kind := "before", Spec := SpecValue.nil }
     (by decide) (by decide)⟩

/-- C7 (the code departs from the claim).  An egress document whose
`egress.meta.type` is the ingress string `io.statefun.kinesis/ingress` is not
rejected: `Egress.UnmarshalYAML` maps it to a Kinesis egress component. -/
theorem egress_ingress_type_accepted :
    Node.text (ingressTypedEgress.path ["egress", "meta", "type"])
        = "io.statefun.kinesis/ingress"
      ∧ Egress.UnmarshalYAML ingressTypedEgress Egress.zero
          = ({ Kind := "io.statefun.kinesis.v1/egress",
               Spec := SpecValue.kinesisEgress
                 { Id := "out", AwsRegion := Node.str "us-west-2",
                   AwsCredentials := Node.null, MaxOutstandingRecords := Node.null,
                   ClientConfigProperties := Node.null } }, none) :=
  ⟨rfl, rfl⟩

/-- C8.  Whenever `Endpoint.UnmarshalYAML` succeeds, the kind is
`io.statefun.endpoints.v2/http`, whatever the document holds at
`endpoint.meta.kind`, and the functions, the URL path template and the
timeouts are those at `endpoint.spec` of the legacy document. -/
theorem endpoint_kind_fixed_spec_copied (doc : Node) (e0 e : Endpoint)
    (h : Endpoint.UnmarshalYAML doc e0 = (e, none)) :
    e.Kind = "io.statefun.endpoints.v2/http"
      ∧ e.Spec.Functions = Node.text (doc.path ["endpoint", "spec", "functions"])
      ∧ e.Spec.UrlPathTemplate = Node.text (doc.path ["endpoint", "spec", "urlPathTemplate"])
      ∧ e.Spec.Timeouts = Node.entries (doc.path ["endpoint", "spec", "timeouts"]) := by
  unfold Endpoint.UnmarshalYAML at h
  split at h
  · simp at h
  · next legacy hl =>
    simp only [Prod.mk.injEq, and_true] at h
    subst h
    have hf := decodeEndpointSpec_fields (decodeLegacyEndpoint_spec hl)
    refine ⟨rfl, ?_, ?_, ?_⟩
    · rw [path_three]; exact hf.1
    · rw [path_three]; exact hf.2.1
    · rw [path_three]; exact hf.2.2

/-- Witness of C8: the endpoint of scenario A. -/
theorem endpoint_kind_fixed_spec_copied_witness :
    (Endpoint.UnmarshalYAML sampleEndpoint Endpoint.zero).2 = none
      ∧ (Endpoint.UnmarshalYAML sampleEndpoint Endpoint.zero).1.Kind
          = "io.statefun.endpoints.v2/http"
      ∧ (Endpoint.UnmarshalYAML sampleEndpoint Endpoint.zero).1.Spec.Functions = "ns/fn"
      ∧ (Endpoint.UnmarshalYAML sampleEndpoint Endpoint.zero).1.Spec.UrlPathTemplate
          = "/a/\x7bb\x7d"
      ∧ (Endpoint.UnmarshalYAML sampleEndpoint Endpoint.zero).1.Spec.Timeouts = none :=
  ⟨rfl, endpoint_kind_fixed_spec_copied sampleEndpoint Endpoint.zero _ rfl⟩

/-- C9, as stated, fails.  A Kafka ingress whose `properties` is the integer
`12345678901234567890123`, which the decoder resolves to a float64, and whose
`consumerGroupId` is the integer `123` maps, and its encoded canonical spec
holds the float `1.2345678901234568e+22` under `properties` and the string
`123` under `consumerGroupId`: neither is the legacy value. -/
theorem optional_number_not_passed_through :
    numericKafkaIngress.path ["ingress", "spec", "properties"]
        = some (Node.scalar (Scalar.float "1.2345678901234568e+22") "12345678901234567890123")
      ∧ numericKafkaIngress.path ["ingress", "spec", "consumerGroupId"]
        = some (Node.scalar (Scalar.int 123) "123")
      ∧ (Ingress.UnmarshalYAML numericKafkaIngress Ingress.zero).2 = none
      ∧ (encodeIngress (Ingress.UnmarshalYAML numericKafkaIngress Ingress.zero).1.MarshalYAML.1).path
          ["spec", "properties"]
        = some (Node.scalar (Scalar.float "1.2345678901234568e+22") "1.2345678901234568e+22")
      ∧ (encodeIngress (Ingress.UnmarshalYAML numericKafkaIngress Ingress.zero).1.MarshalYAML.1).path
          ["spec", "properties"]
        ≠ numericKafkaIngress.path ["ingress", "spec", "properties"]
      ∧ (encodeIngress (Ingress.UnmarshalYAML numericKafkaIngress Ingress.zero).1.MarshalYAML.1).path
          ["spec", "consumerGroupId"]
        = some (Node.scalar (Scalar.str "123") "123")
      ∧ (encodeIngress (Ingress.UnmarshalYAML numericKafkaIngress Ingress.zero).1.MarshalYAML.1).path
          ["spec", "consumerGroupId"]
        ≠ numericKafkaIngress.path ["ingress", "spec", "consumerGroupId"] :=
  ⟨rfl, rfl, rfl, rfl, fun h => absurd (congrArg Node.text h) (by decide), rfl,
   fun h => absurd (congrArg Node.value h) (by decide)⟩

/-- C9, amended.  Whenever an ingress or an egress maps, every optional field
of its variant that is present and not empty in the legacy spec is found under
the same key of the encoded canonical spec, holding the value the decoder
resolved, in the form of the encoder (the string of its text for
`consumerGroupId`); every one that is absent from the legacy spec has no key
there; and a string value is emitted unchanged. -/
theorem optional_fields_emitted_resolved (doc : Node) :
    (∀ i0 i : Ingress, Ingress.UnmarshalYAML doc i0 = (i, none) →
      ∀ k ∈ optionalKeys i.Spec,
        (doc.path ["ingress", "spec", k] = none →
            (encodeIngress i.MarshalYAML.1).path ["spec", k] = none)
          ∧ (∀ v, doc.path ["ingress", "spec", k] = some v → PresentNonEmpty k v →
            (encodeIngress i.MarshalYAML.1).path ["spec", k] = some (emittedValue k v)))
    ∧ (∀ e0 e : Egress, Egress.UnmarshalYAML doc e0 = (e, none) →
      ∀ k ∈ optionalKeys e.Spec,
        (doc.path ["egress", "spec", k] = none →
            (encodeEgress e.MarshalYAML.1).path ["spec", k] = none)
          ∧ (∀ v, doc.path ["egress", "spec", k] = some v → PresentNonEmpty k v →
            (encodeEgress e.MarshalYAML.1).path ["spec", k] = some (emittedValue k v)))
    ∧ (∀ k s : String, emittedValue k (Node.str s) = Node.str s) := by
  refine ⟨?_, ?_, ?_⟩
  · intro i0 i h k hk
    rw [encodeIngress_spec_path, path_three]
    unfold Ingress.UnmarshalYAML at h
    split at h
    · simp at h
    · split at h
      · split at h
        · simp at h
        · next legacy hl =>
          simp only [Prod.mk.injEq, and_true] at h
          subst h
          exact kafkaIngress_optional (decodeLegacy_parts hl).2 legacy.1.Id k hk
      · split at h
        · split at h
          · simp at h
          · next legacy hl =>
            simp only [Prod.mk.injEq, and_true] at h
            subst h
            exact kinesisIngress_optional (decodeLegacy_parts hl).2 legacy.1.Id k hk
        · simp at h
  · intro e0 e h k hk
    rw [encodeEgress_spec_path, path_three]
    unfold Egress.UnmarshalYAML at h
    split at h
    · simp at h
    · split at h
      · split at h
        · simp at h
        · next legacy hl =>
          simp only [Prod.mk.injEq, and_true] at h
          subst h
          exact kafkaEgress_optional (decodeLegacy_parts hl).2 legacy.1.Id k hk
      · split at h
        · split at h
          · simp at h
          · next legacy hl =>
            simp only [Prod.mk.injEq, and_true] at h
            subst h
            exact kinesisEgress_optional (decodeLegacy_parts hl).2 legacy.1.Id k hk
        · simp at h
  · intro k s
    unfold emittedValue
    split <;> rfl

/-- Witness of the amended C9: the `properties` of a Kafka ingress, a sequence
of string entries, are kept as they are, its absent `startupPosition` stays
absent, the `deliverySemantic` of a Kafka egress is kept, and an integer
written `0x10` is emitted as `16`. -/
theorem optional_fields_emitted_resolved_witness :
    ((Ingress.UnmarshalYAML sampleKafkaIngress Ingress.zero).2 = none
      ∧ (encodeIngress (Ingress.UnmarshalYAML sampleKafkaIngress Ingress.zero).1.MarshalYAML.1).path
            ["spec", "properties"]
          = some (Node.seq [Node.map [("acks", Node.str "all")]])
      ∧ (encodeIngress (Ingress.UnmarshalYAML sampleKafkaIngress Ingress.zero).1.MarshalYAML.1).path
            ["spec", "startupPosition"] = none)
    ∧ ((Egress.UnmarshalYAML sampleKafkaEgress Egress.zero).2 = none
      ∧ (encodeEgress (Egress.UnmarshalYAML sampleKafkaEgress Egress.zero).1.MarshalYAML.1).path
            ["spec", "deliverySemantic"]
          = some (Node.map [("type", Node.str "exactly-once")]))
    ∧ (encodeIngress (Ingress.UnmarshalYAML
          (kafkaIngressWith [("properties", Node.scalar (Scalar.int 16) "0x10")])
          Ingress.zero).1.MarshalYAML.1).path ["spec", "properties"]
        = some (Node.scalar (Scalar.int 16) "16") :=
  ⟨⟨rfl,
    (((optional_fields_emitted_resolved sampleKafkaIngress).1 Ingress.zero _ rfl
        "properties" (by decide)).2 _ rfl (by simp [PresentNonEmpty])),
    (((optional_fields_emitted_resolved sampleKafkaIngress).1 Ingress.zero _ rfl
        "startupPosition" (by decide)).1 rfl)⟩,
   ⟨rfl,
    (((optional_fields_emitted_resolved sampleKafkaEgress).2.1 Egress.zero _ rfl
        "deliverySemantic" (by decide)).2 _ rfl (by simp [PresentNonEmpty]))⟩,
   (((optional_fields_emitted_resolved
        (kafkaIngressWith [("properties", Node.scalar (Scalar.int 16) "0x10")])).1
      Ingress.zero _ rfl "properties" (by decide)).2 _ rfl (by simp [PresentNonEmpty]))⟩

/-- C10 (the code departs from the claim).  The endpoint of scenario A has no
`timeouts` key in its legacy spec and decodes without error, and its encoded
canonical spec has the key `timeouts`, holding the empty mapping: the field is
not tagged `omitempty`. -/
theorem endpoint_absent_timeouts_rendered :
    sampleEndpoint.path ["endpoint", "spec", "timeouts"] = none
      ∧ (Endpoint.UnmarshalYAML sampleEndpoint Endpoint.zero).2 = none
      ∧ (encodeEndpoint (Endpoint.UnmarshalYAML sampleEndpoint Endpoint.zero).1.MarshalYAML.1).path
          ["spec", "timeouts"] = some (Node.map []) :=
  ⟨rfl, rfl, rfl⟩

/-! ## Lemmas for empty optional fields -/

/-- An opaque optional field that is present is omitted exactly when null. -/
theorem opaque_field_omitted_iff {o : Option Node} {f v : Node} (hf : f = o.getD Node.null)
    (ho : o = some v) :
    (if f.isNull = false then some f else none) = none ↔ v = Node.null := by
  subst ho
  simp only [Option.getD_some] at hf
  subst hf
  cases f <;> simp [Node.isNull]

/-- A string optional field that is present is omitted exactly when it has no
text. -/
theorem text_field_omitted_iff {o : Option Node} {f : String} {v : Node}
    (hf : f = Node.text o) (ho : o = some v) :
    (if f ≠ "" then some (Node.str f) else none) = none ↔ Node.text (some v) = "" := by
  subst ho
  subst hf
  by_cases h : Node.text (some v) = "" <;> simp [h]

/-- For an opaque field, empty means null. -/
theorem emptyValue_other {k : String} (hk : k ≠ "consumerGroupId") (v : Node) :
    EmptyValue k v ↔ v = Node.null := by
  simp [EmptyValue, hk]

/-- For the string field, empty means without text. -/
theorem emptyValue_string (v : Node) :
    EmptyValue "consumerGroupId" v ↔ Node.text (some v) = "" := by
  constructor
  · rintro (h | ⟨_, h⟩)
    · subst h; rfl
    · exact h
  · intro h; exact Or.inr ⟨rfl, h⟩

/-- Empty optional fields of a Kafka ingress through decoding and encoding. -/
theorem kafkaIngress_omitted_iff {o : Option Node} {s : KafkaIngressSpec}
    (h : decStruct KafkaIngressSpec.zero decodeKafkaIngressSpec o = some s) (id k : String)
    (hk : k ∈ optionalKeys (SpecValue.kafkaIngress s)) (v : Node)
    (hv : o.bind (Node.lookup k) = some v) :
    (encodeKafkaIngressSpec { s with Id := id }).lookup k = none ↔ EmptyValue k v := by
  obtain ⟨hg, hp, hr⟩ := decodeKafkaIngressSpec_fields h
  simp only [optionalKeys, List.mem_cons, List.mem_singleton, List.not_mem_nil, or_false] at hk
  simp only [encodeKafkaIngressSpec, Node.lookup, List.append_assoc, List.cons_append,
    List.nil_append, List.lookup_cons, lookup_omitEmptyString_append, lookup_omitEmpty_append]
  rcases hk with rfl | rfl | rfl
  · rw [emptyValue_string]
    simpa using text_field_omitted_iff hg hv
  · rw [emptyValue_other (by decide)]
    simpa using opaque_field_omitted_iff hp hv
  · rw [emptyValue_other (by decide)]
    simpa using opaque_field_omitted_iff hr hv

/-- Empty optional fields of a Kinesis ingress through decoding and encoding. -/
theorem kinesisIngress_omitted_iff {o : Option Node} {s : KinesisIngressSpec}
    (h : decStruct KinesisIngressSpec.zero decodeKinesisIngressSpec o = some s) (id k : String)
    (hk : k ∈ optionalKeys (SpecValue.kinesisIngress s)) (v : Node)
    (hv : o.bind (Node.lookup k) = some v) :
    (encodeKinesisIngressSpec { s with Id := id }).lookup k = none ↔ EmptyValue k v := by
  obtain ⟨h1, h2, h3, h4, h5⟩ := decodeKinesisIngressSpec_fields h
  simp only [optionalKeys, List.mem_cons, List.mem_singleton, List.not_mem_nil, or_false] at hk
  simp only [encodeKinesisIngressSpec, Node.lookup, List.append_assoc, List.cons_append,
    List.nil_append, List.lookup_cons, lookup_omitEmpty, lookup_omitEmpty_append]
  rcases hk with rfl | rfl | rfl | rfl | rfl
  · rw [emptyValue_other (by decide)]; simpa using opaque_field_omitted_iff h1 hv
  · rw [emptyValue_other (by decide)]; simpa using opaque_field_omitted_iff h2 hv
  · rw [emptyValue_other (by decide)]; simpa using opaque_field_omitted_iff h3 hv
  · rw [emptyValue_other (by decide)]; simpa using opaque_field_omitted_iff h4 hv
  · rw [emptyValue_other (by decide)]; simpa using opaque_field_omitted_iff h5 hv

/-- Empty optional fields of a Kafka egress through decoding and encoding. -/
theorem kafkaEgress_omitted_iff {o : Option Node} {s : KafkaEgressSpec}
    (h : decStruct KafkaEgressSpec.zero decodeKafkaEgressSpec o = some s) (id k : String)
    (hk : k ∈ optionalKeys (SpecValue.kafkaEgress s)) (v : Node)
    (hv : o.bind (Node.lookup k) = some v) :
    (encodeKafkaEgressSpec { s with Id := id }).lookup k = none ↔ EmptyValue k v := by
  obtain ⟨h1, h2⟩ := decodeKafkaEgressSpec_fields h
  simp only [optionalKeys, List.mem_cons, List.mem_singleton, List.not_mem_nil, or_false] at hk
  simp only [encodeKafkaEgressSpec, Node.lookup, List.append_assoc, List.cons_append,
    List.nil_append, List.lookup_cons, lookup_omitEmpty, lookup_omitEmpty_append]
  rcases hk with rfl | rfl
  · rw [emptyValue_other (by decide)]; simpa using opaque_field_omitted_iff h1 hv
  · rw [emptyValue_other (by decide)]; simpa using opaque_field_omitted_iff h2 hv

/-- Empty optional fields of a Kinesis egress through decoding and encoding. -/
theorem kinesisEgress_omitted_iff {o : Option Node} {s : KinesisEgressSpec}
    (h : decStruct KinesisEgressSpec.zero decodeKinesisEgressSpec o = some s) (id k : String)
    (hk : k ∈ optionalKeys (SpecValue.kinesisEgress s)) (v : Node)
    (hv : o.bind (Node.lookup k) = some v) :
    (encodeKinesisEgressSpec { s with Id := id }).lookup k = none ↔ EmptyValue k v := by
  obtain ⟨h1, h2, h3, h4⟩ := decodeKinesisEgressSpec_fields h
  simp only [optionalKeys, List.mem_cons, List.mem_singleton, List.not_mem_nil, or_false] at hk
  simp only [encodeKinesisEgressSpec, Node.lookup, List.append_assoc, List.cons_append,
    List.nil_append, List.lookup_cons, lookup_omitEmpty, lookup_omitEmpty_append]
  rcases hk with rfl | rfl | rfl | rfl
  · rw [emptyValue_other (by decide)]; simpa using opaque_field_omitted_iff h1 hv
  · rw [emptyValue_other (by decide)]; simpa using opaque_field_omitted_iff h2 hv
  · rw [emptyValue_other (by decide)]; simpa using opaque_field_omitted_iff h3 hv
  · rw [emptyValue_other (by decide)]; simpa using opaque_field_omitted_iff h4 hv

/-- A successful `Ingress.UnmarshalYAML`, by its two branches. -/
theorem ingress_success {doc : Node} {i0 i : Ingress}
    (h : Ingress.UnmarshalYAML doc i0 = (i, none)) :
    (∃ l, decodeLegacy "ingress" KafkaIngressSpec.zero decodeKafkaIngressSpec doc = some l
        ∧ i = { Kind := "io.statefun.kafka.v1/ingress",
                Spec := SpecValue.kafkaIngress { l.2 with Id := l.1.Id } })
      ∨ (∃ l, decodeLegacy "ingress" KinesisIngressSpec.zero decodeKinesisIngressSpec doc = some l
        ∧ i = { Kind := "io.statefun.kinesis.v1/ingress",
                Spec := SpecValue.kinesisIngress { l.2 with Id := l.1.Id } }) := by
  unfold Ingress.UnmarshalYAML at h
  split at h
  · simp at h
  · split at h
    · split at h
      · simp at h
      · next legacy hl =>
        simp only [Prod.mk.injEq, and_true] at h
        exact Or.inl ⟨legacy, hl, h.symm⟩
    · split at h
      · split at h
        · simp at h
        · next legacy hl =>
          simp only [Prod.mk.injEq, and_true] at h
          exact Or.inr ⟨legacy, hl, h.symm⟩
      · simp at h

/-- A successful `Egress.UnmarshalYAML`, by its two branches. -/
theorem egress_success {doc : Node} {e0 e : Egress}
    (h : Egress.UnmarshalYAML doc e0 = (e, none)) :
    (∃ l, decodeLegacy "egress" KafkaEgressSpec.zero decodeKafkaEgressSpec doc = some l
        ∧ e = { Kind := "io.statefun.kafka.v1/egress",
                Spec := SpecValue.kafkaEgress { l.2 with Id := l.1.Id } })
      ∨ (∃ l, decodeLegacy "egress" KinesisEgressSpec.zero decodeKinesisEgressSpec doc = some l
        ∧ e = { Kind := "io.statefun.kinesis.v1/egress",
                Spec := SpecValue.kinesisEgress { l.2 with Id := l.1.Id } }) := by
  unfold Egress.UnmarshalYAML at h
  split at h
  · simp at h
  · split at h
    · split at h
      · simp at h
      · next legacy hl =>
        simp only [Prod.mk.injEq, and_true] at h
        exact Or.inl ⟨legacy, hl, h.symm⟩
    · split at h
      · split at h
        · simp at h
        · next legacy hl =>
          simp only [Prod.mk.injEq, and_true] at h
          exact Or.inr ⟨legacy, hl, h.symm⟩
      · simp at h

/-- C11, as stated, fails.  A Kafka ingress whose legacy spec holds
`consumerGroupId: ""` and a null `properties` maps, and its encoded canonical
spec has neither key: the encoding is the one of the same document without the
two fields. -/
theorem empty_optional_fields_dropped :
    (kafkaIngressWith [("consumerGroupId", Node.str ""), ("properties", Node.null)]).path
        ["ingress", "spec", "consumerGroupId"] = some (Node.str "")
      ∧ (kafkaIngressWith [("consumerGroupId", Node.str ""), ("properties", Node.null)]).path
        ["ingress", "spec", "properties"] = some Node.null
      ∧ (Ingress.UnmarshalYAML
          (kafkaIngressWith [("consumerGroupId", Node.str ""), ("properties", Node.null)])
          Ingress.zero).2 = none
      ∧ (encodeIngress (Ingress.UnmarshalYAML
          (kafkaIngressWith [("consumerGroupId", Node.str ""), ("properties", Node.null)])
          Ingress.zero).1.MarshalYAML.1).path ["spec", "consumerGroupId"] = none
      ∧ (encodeIngress (Ingress.UnmarshalYAML
          (kafkaIngressWith [("consumerGroupId", Node.str ""), ("properties", Node.null)])
          Ingress.zero).1.MarshalYAML.1).path ["spec", "properties"] = none
      ∧ encodeIngress (Ingress.UnmarshalYAML
          (kafkaIngressWith [("consumerGroupId", Node.str ""), ("properties", Node.null)])
          Ingress.zero).1.MarshalYAML.1
        = encodeIngress (Ingress.UnmarshalYAML (kafkaIngressWith []) Ingress.zero).1.MarshalYAML.1 :=
  ⟨rfl, rfl, rfl, rfl, rfl, rfl⟩

/-- C11, amended.  Whenever an ingress or an egress maps, an optional field
that is present in the legacy spec is missing from the encoded canonical spec
exactly when its legacy value is null or, for `consumerGroupId`, has no text;
every other present value, an empty string, sequence or mapping of an opaque
field included, keeps its key. -/
theorem optional_field_omitted_iff_empty (doc : Node) :
    (∀ i0 i : Ingress, Ingress.UnmarshalYAML doc i0 = (i, none) →
      ∀ k ∈ optionalKeys i.Spec, ∀ v, doc.path ["ingress", "spec", k] = some v →
        ((encodeIngress i.MarshalYAML.1).path ["spec", k] = none ↔ EmptyValue k v))
    ∧ (∀ e0 e : Egress, Egress.UnmarshalYAML doc e0 = (e, none) →
      ∀ k ∈ optionalKeys e.Spec, ∀ v, doc.path ["egress", "spec", k] = some v →
        ((encodeEgress e.MarshalYAML.1).path ["spec", k] = none ↔ EmptyValue k v)) := by
  constructor
  · intro i0 i h k hk v hv
    rw [encodeIngress_spec_path]
    rw [path_three] at hv
    rcases ingress_success h with ⟨l, hl, rfl⟩ | ⟨l, hl, rfl⟩
    · exact kafkaIngress_omitted_iff (decodeLegacy_parts hl).2 l.1.Id k hk v hv
    · exact kinesisIngress_omitted_iff (decodeLegacy_parts hl).2 l.1.Id k hk v hv
  · intro e0 e h k hk v hv
    rw [encodeEgress_spec_path]
    rw [path_three] at hv
    rcases egress_success h with ⟨l, hl, rfl⟩ | ⟨l, hl, rfl⟩
    · exact kafkaEgress_omitted_iff (decodeLegacy_parts hl).2 l.1.Id k hk v hv
    · exact kinesisEgress_omitted_iff (decodeLegacy_parts hl).2 l.1.Id k hk v hv

/-- Witness of the amended C11, on a Kafka ingress: a null `properties` and
an empty `startupPosition` string, each with the condition under which its key
is missing. -/
theorem optional_field_omitted_iff_empty_witness :
    ((encodeIngress (Ingress.UnmarshalYAML
          (kafkaIngressWith [("properties", Node.null)]) Ingress.zero).1.MarshalYAML.1).path
        ["spec", "properties"] = none ↔ EmptyValue "properties" Node.null)
    ∧ ((encodeIngress (Ingress.UnmarshalYAML
          (kafkaIngressWith [("startupPosition", Node.str "")]) Ingress.zero).1.MarshalYAML.1).path
        ["spec", "startupPosition"] = none ↔ EmptyValue "startupPosition" (Node.str "")) :=
  ⟨(optional_field_omitted_iff_empty (kafkaIngressWith [("properties", Node.null)])).1
      Ingress.zero _ rfl "properties" (by decide) Node.null rfl,
   (optional_field_omitted_iff_empty (kafkaIngressWith [("startupPosition", Node.str "")])).1
      Ingress.zero _ rfl "startupPosition" (by decide) (Node.str "") rfl⟩

/-! ## Lemmas on the module -/

/-- Assigning to the last cell of a store. -/
theorem set_last_cell (base : List Component) (cur x : Component) :
    (base ++ [cur]).set base.length x = base ++ [x] := by
  induction base with
  | nil => rfl
  | cons b bs ih => simp [ih]

/-- The last element of a list with a default, one element on. -/
theorem getLast_cons_getD (x cur : Component) (rest : List Component) :
    (x :: rest).getLast?.getD cur = rest.getLast?.getD x := by
  cases rest with
  | nil => rfl
  | cons y r =>
    rw [List.getLast?_cons_cons]
    cases h : (y :: r).getLast? with
    | none => simp at h
    | some z => rfl

/-- The iterations of a range loop, once its variable is declared. -/
theorem range_iterations (base : List Component) (xs : List Component) :
    ∀ (cur : Component) (cs : List Nat),
      xs.foldl (fun (acc : Store × List Nat) x =>
          (acc.1.assign base.length x, acc.2 ++ [base.length]))
        ({ cells := base ++ [cur] }, cs)
      = ({ cells := base ++ [xs.getLast?.getD cur] },
         cs ++ List.replicate xs.length base.length) := by
  induction xs with
  | nil => intro cur cs; simp
  | cons x rest ih =>
    intro cur cs
    have step : (Store.mk (base ++ [cur])).assign base.length x = Store.mk (base ++ [x]) := by
      simp [Store.assign, set_last_cell]
    rw [List.foldl_cons]
    dsimp only
    rw [step, ih x (cs ++ [base.length]), getLast_cons_getD]
    simp [List.replicate_succ]

/-- A range loop leaves one variable, holding its last element, and appends
the address of that variable once for every element. -/
theorem rangeAppend_eq (zero : Component) (xs : List Component) (σ : Store) (cs : List Nat) :
    rangeAppend zero xs (σ, cs)
      = ({ cells := σ.cells ++ [xs.getLast?.getD zero] },
         cs ++ List.replicate xs.length σ.cells.length) := by
  simp only [rangeAppend, Store.alloc]
  exact range_iterations σ.cells xs zero cs

/-- The module built from the decoded groups. -/
theorem unmarshal_module_ok {n : Node} {legacy : LegacySpec}
    (h : decodeLegacyModule n = Except.ok (legacy, false)) (σ : Store) (m : Module) :
    Module.UnmarshalYAML n σ m
      = (({ cells := σ.cells
              ++ [(legacy.Endpoints.map Component.endpoint).getLast?.getD
                    (Component.endpoint Endpoint.zero),
                  (legacy.Ingresses.map Component.ingress).getLast?.getD
                    (Component.ingress Ingress.zero),
                  (legacy.Egresses.map Component.egress).getLast?.getD
                    (Component.egress Egress.zero)] },
          List.replicate legacy.Endpoints.length σ.cells.length
            ++ List.replicate legacy.Ingresses.length (σ.cells.length + 1)
            ++ List.replicate legacy.Egresses.length (σ.cells.length + 2)), none) := by
  simp only [Module.UnmarshalYAML, h, rangeAppend_eq]
  simp [Nat.add_assoc]

/-- A successful `Module.UnmarshalYAML` decoded its groups without a type
error. -/
theorem unmarshal_module_success {n : Node} {σ σ' : Store} {m m' : Module}
    (h : Module.UnmarshalYAML n σ m = ((σ', m'), none)) :
    ∃ legacy, decodeLegacyModule n = Except.ok (legacy, false) := by
  unfold Module.UnmarshalYAML at h
  split at h
  · simp at h
  · simp at h
  · next legacy hl => exact ⟨legacy, hl⟩

/-- Loading the three loop variables. -/
theorem load_loop_variables (base : List Component) (a b c : Component) :
    (Store.mk (base ++ [a, b, c])).load base.length = some a
      ∧ (Store.mk (base ++ [a, b, c])).load (base.length + 1) = some b
      ∧ (Store.mk (base ++ [a, b, c])).load (base.length + 2) = some c := by
  induction base with
  | nil => exact ⟨rfl, rfl, rfl⟩
  | cons x xs ih => simpa [Store.load] using ih

/-- The components of a built module are the loop variables of its three
loops, once for every element of the group. -/
theorem components_of_built {n : Node} {legacy : LegacySpec}
    (h : decodeLegacyModule n = Except.ok (legacy, false)) (σ : Store) (m : Module) :
    Module.components (Module.UnmarshalYAML n σ m).1.1 (Module.UnmarshalYAML n σ m).1.2
      = List.replicate legacy.Endpoints.length
          (some ((legacy.Endpoints.map Component.endpoint).getLast?.getD
            (Component.endpoint Endpoint.zero)))
        ++ List.replicate legacy.Ingresses.length
          (some ((legacy.Ingresses.map Component.ingress).getLast?.getD
            (Component.ingress Ingress.zero)))
        ++ List.replicate legacy.Egresses.length
          (some ((legacy.Egresses.map Component.egress).getLast?.getD
            (Component.egress Egress.zero))) := by
  rw [unmarshal_module_ok h]
  obtain ⟨h1, h2, h3⟩ := load_loop_variables σ.cells
    ((legacy.Endpoints.map Component.endpoint).getLast?.getD (Component.endpoint Endpoint.zero))
    ((legacy.Ingresses.map Component.ingress).getLast?.getD (Component.ingress Ingress.zero))
    ((legacy.Egresses.map Component.egress).getLast?.getD (Component.egress Egress.zero))
  simp only [Module.components, List.map_append, List.map_replicate, h1, h2, h3]

/-- One step of a path that reaches a node goes through a mapping. -/
theorem path_cons_some {k : String} {ks : List String} {n v : Node}
    (h : Node.path (k :: ks) n = some v) :
    ∃ es x, n = Node.map es ∧ es.lookup k = some x ∧ Node.path ks x = some v := by
  cases n with
  | null => simp [Node.path, Node.lookup] at h
  | scalar t s => simp [Node.path, Node.lookup] at h
  | seq xs => simp [Node.path, Node.lookup] at h
  | map es =>
    simp only [Node.path, Node.lookup] at h
    cases hl : List.lookup k es with
    | none => simp [hl] at h
    | some x => exact ⟨es, x, rfl, hl, by simpa [hl] using h⟩

/-- An element whose mapping fails aborts the decoding of its sequence. -/
theorem decodeElements_error {T : Type} (zero : T) (unmarshal : Node → T → T × Option Err)
    {n : Node} (hnull : n ≠ Node.null) (hfail : (unmarshal n zero).2 ≠ none) :
    ∀ items : List Node, n ∈ items → ∃ e, decodeElements zero unmarshal items = Except.error e := by
  intro items
  induction items with
  | nil => intro h; simp at h
  | cons x xs ih =>
    intro hmem
    have hrest : n = x ∨ n ∈ xs := by simpa using hmem
    cases x with
    | null =>
      rcases hrest with h | h
      · exact absurd h hnull
      · obtain ⟨e, he⟩ := ih h
        exact ⟨e, by simp [decodeElements, he]⟩
    | scalar t s =>
      cases hu : unmarshal (Node.scalar t s) zero with
      | mk y oe =>
        cases oe with
        | some e => exact ⟨e, by simp [decodeElements, hu]⟩
        | none =>
          rcases hrest with h | h
          · subst h; simp [hu] at hfail
          · obtain ⟨e, he⟩ := ih h
            exact ⟨e, by simp [decodeElements, hu, he]⟩
    | seq zs =>
      cases hu : unmarshal (Node.seq zs) zero with
      | mk y oe =>
        cases oe with
        | some e => exact ⟨e, by simp [decodeElements, hu]⟩
        | none =>
          rcases hrest with h | h
          · subst h; simp [hu] at hfail
          · obtain ⟨e, he⟩ := ih h
            exact ⟨e, by simp [decodeElements, hu, he]⟩
    | map es =>
      cases hu : unmarshal (Node.map es) zero with
      | mk y oe =>
        cases oe with
        | some e => exact ⟨e, by simp [decodeElements, hu]⟩
        | none =>
          rcases hrest with h | h
          · subst h; simp [hu] at hfail
          · obtain ⟨e, he⟩ := ih h
            exact ⟨e, by simp [decodeElements, hu, he]⟩

/-- A sequence with an element whose mapping fails aborts the decoding of its
slice. -/
theorem decodeSlice_error {T : Type} (zero : T) (unmarshal : Node → T → T × Option Err)
    {n : Node} (hnull : n ≠ Node.null) (hfail : (unmarshal n zero).2 ≠ none)
    {items : List Node} (hmem : n ∈ items) (old : List T) (flag : Bool) :
    ∃ e, decodeSlice zero unmarshal old flag (Node.seq items) = Except.error e := by
  obtain ⟨e, he⟩ := decodeElements_error zero unmarshal hnull hfail items hmem
  exact ⟨e, by simp [decodeSlice, he]⟩

/-- A group with an element whose mapping fails aborts the decoding of the
entries of `module.spec`. -/
theorem decodeGroups_error {k : String} (hk : k ∈ ["endpoints", "ingresses", "egresses"])
    {n : Node} (hnull : n ≠ Node.null) (hfail : elementError k n ≠ none)
    {items : List Node} (hmem : n ∈ items) :
    ∀ (es : List (String × Node)) (st : LegacySpec × Bool),
      es.lookup k = some (Node.seq items) → ∃ e, decodeGroups es st = Except.error e := by
  intro es
  induction es with
  | nil => intro st h; simp at h
  | cons kv rest ih =>
    intro st h
    obtain ⟨k', v⟩ := kv
    by_cases hkk : k = k'
    · subst hkk
      have hv : v = Node.seq items := by simpa using h
      subst hv
      simp only [List.mem_cons, List.mem_singleton, List.not_mem_nil, or_false] at hk
      rcases hk with rfl | rfl | rfl
      · have hf : (Endpoint.UnmarshalYAML n Endpoint.zero).2 ≠ none := by
          simpa [elementError] using hfail
        obtain ⟨e, he⟩ := decodeSlice_error Endpoint.zero Endpoint.UnmarshalYAML hnull hf hmem
          st.1.Endpoints st.2
        exact ⟨e, by simp [decodeGroups, he]⟩
      · have hf : (Ingress.UnmarshalYAML n Ingress.zero).2 ≠ none := by
          simpa [elementError] using hfail
        obtain ⟨e, he⟩ := decodeSlice_error Ingress.zero Ingress.UnmarshalYAML hnull hf hmem
          st.1.Ingresses st.2
        exact ⟨e, by simp [decodeGroups, he]⟩
      · have hf : (Egress.UnmarshalYAML n Egress.zero).2 ≠ none := by
          simpa [elementError] using hfail
        obtain ⟨e, he⟩ := decodeSlice_error Egress.zero Egress.UnmarshalYAML hnull hf hmem
          st.1.Egresses st.2
        exact ⟨e, by simp [decodeGroups, he]⟩
    · have hb : (k == k') = false := by simpa using hkk
      have hrest : rest.lookup k = some (Node.seq items) := by
        simpa [List.lookup, hb] using h
      unfold decodeGroups
      split
      · split
        · next e _ => exact ⟨e, rfl⟩
        · exact ih _ hrest
      · split
        · split
          · next e _ => exact ⟨e, rfl⟩
          · exact ih _ hrest
        · split
          · split
            · next e _ => exact ⟨e, rfl⟩
            · exact ih _ hrest
          · exact ih _ hrest

/-- C12.  When a non-null element of `endpoints`, `ingresses` or `egresses`
fails to map, `Module.UnmarshalYAML` returns an error and leaves the store and
the receiver as they were; on the fresh module of `convert` the text marshalled
afterwards is empty. -/
theorem module_failure_leaves_module (doc : Node) (σ : Store) (m : Module)
    (emit : Node → Except Err String) (k : String) (items : List Node) (n : Node)
    (hk : k ∈ ["endpoints", "ingresses", "egresses"])
    (hp : doc.path ["module", "spec", k] = some (Node.seq items))
    (hmem : n ∈ items) (hnull : n ≠ Node.null) (hfail : elementError k n ≠ none) :
    (∃ err, Module.UnmarshalYAML doc σ m = ((σ, m), some err))
      ∧ Module.MarshalText emit (Module.UnmarshalYAML doc Store.empty []).1.1
          (Module.UnmarshalYAML doc Store.empty []).1.2 = ("", none) := by
  obtain ⟨es, x, hdoc, hx, hp1⟩ := path_cons_some hp
  obtain ⟨ms, y, hxm, hy, hp2⟩ := path_cons_some hp1
  obtain ⟨ss, z, hys, hz, hp3⟩ := path_cons_some hp2
  simp only [Node.path, Option.some.injEq] at hp3
  subst hdoc; subst hxm; subst hys; subst hp3
  obtain ⟨e, he⟩ := decodeGroups_error hk hnull hfail hmem ss (LegacySpec.zero, false) hz
  have hd : decodeLegacyModule (Node.map es) = Except.error e := by
    simp [decodeLegacyModule, hx, hy, decodeLegacySpec, he]
  have hu : ∀ (σ : Store) (m : Module), Module.UnmarshalYAML (Node.map es) σ m
      = ((σ, m), some (Err.wrap "failed to unmarshal module.yaml" e)) := by
    intro σ m
    simp [Module.UnmarshalYAML, hd]
  refine ⟨⟨_, hu σ m⟩, ?_⟩
  rw [hu Store.empty []]
  rfl

/-- Witness of C12: the module of scenario D. -/
theorem module_failure_leaves_module_witness :
    (∃ err, Module.UnmarshalYAML (legacyModule [sampleEndpoint] [unknownIngress] [])
        (Store.mk [Component.endpoint Endpoint.zero]) [0]
      = ((Store.mk [Component.endpoint Endpoint.zero], [0]), some err))
      ∧ Module.MarshalText (fun _ => Except.ok "text")
          (Module.UnmarshalYAML (legacyModule [sampleEndpoint] [unknownIngress] [])
            Store.empty []).1.1
          (Module.UnmarshalYAML (legacyModule [sampleEndpoint] [unknownIngress] [])
            Store.empty []).1.2 = ("", none) :=
  module_failure_leaves_module (legacyModule [sampleEndpoint] [unknownIngress] [])
    (Store.mk [Component.endpoint Endpoint.zero]) [0] (fun _ => Except.ok "text")
    "ingresses" [unknownIngress] unknownIngress (by decide) rfl (by simp)
    (by simp [unknownIngress]) (by decide)

/-! ## Lemmas on the text of a module -/

/-- The loop of `MarshalText` over components that all encode. -/
theorem marshalLoop_ok (emit : Node → Except Err String) (σ : Store) :
    ∀ (m : List Nat) (ds : List String) (builder : String),
      m.map (fun a => yamlMarshal emit (σ.load a)) = ds.map Except.ok →
      marshalLoop emit σ m builder = (builder ++ terminated ds, none) := by
  intro m
  induction m with
  | nil =>
    intro ds builder h
    cases ds with
    | nil => simp [marshalLoop, terminated]
    | cons d ds => simp at h
  | cons a rest ih =>
    intro ds builder h
    cases ds with
    | nil => simp at h
    | cons d ds =>
      simp only [List.map_cons, List.cons.injEq] at h
      obtain ⟨hd, hrest⟩ := h
      simp only [marshalLoop, hd, ih ds _ hrest, terminated, marker, String.append_assoc]

/-- The loop of `MarshalText` over components of which one does not encode. -/
theorem marshalLoop_error (emit : Node → Except Err String) (σ : Store) {a : Nat} {err : Err}
    (ha : yamlMarshal emit (σ.load a) = Except.error err) :
    ∀ (m : List Nat) (builder : String), a ∈ m →
      ∃ err', marshalLoop emit σ m builder = ("", some err') := by
  intro m
  induction m with
  | nil => intro builder h; simp at h
  | cons b rest ih =>
    intro builder h
    cases hb : yamlMarshal emit (σ.load b) with
    | error e => exact ⟨e, by simp [marshalLoop, hb]⟩
    | ok d =>
      have hrest : a ∈ rest := by
        rcases List.mem_cons.mp h with h1 | h1
        · subst h1; rw [ha] at hb; cases hb
        · exact h1
      obtain ⟨e, he⟩ := ih (builder ++ d ++ "---\n") hrest
      exact ⟨e, by simp [marshalLoop, hb, he]⟩

/-- A text followed by the marker is longer than the text. -/
theorem append_marker_ne (d : String) : d ++ marker ≠ d := by
  intro h
  have hl := congrArg String.length h
  have hm : marker.length = 4 := by decide
  rw [String.length_append, hm] at hl
  omega

/-- C13, as stated, fails.  For the module of the one endpoint of scenario A,
whatever text `d` the library emits for that component, `MarshalText` returns
`d` followed by the marker, which is not the text of the one segment `d` with
the marker as separator. -/
theorem marker_follows_last_segment :
    (∀ (emit : Node → Except Err String) (d : String),
      emit (encodeEndpoint (Endpoint.UnmarshalYAML sampleEndpoint Endpoint.zero).1) = Except.ok d →
      Module.MarshalText emit
          (Module.UnmarshalYAML (legacyModule [sampleEndpoint] [] []) Store.empty []).1.1
          (Module.UnmarshalYAML (legacyModule [sampleEndpoint] [] []) Store.empty []).1.2
        = (d ++ marker, none))
      ∧ (∀ d : String, separated [d] = d ∧ d ++ marker ≠ separated [d]) := by
  constructor
  · intro emit d h
    have hm : Module.UnmarshalYAML (legacyModule [sampleEndpoint] [] []) Store.empty []
        = (({ cells := [Component.endpoint (Endpoint.UnmarshalYAML sampleEndpoint Endpoint.zero).1,
                        Component.ingress Ingress.zero, Component.egress Egress.zero] },
             [0]), none) := rfl
    rw [hm]
    have hy : yamlMarshal emit (some (Component.endpoint
        (Endpoint.UnmarshalYAML sampleEndpoint Endpoint.zero).1)) = Except.ok d := by
      simp only [yamlMarshal, encodeComponent, Endpoint.MarshalYAML]
      exact h
    have := marshalLoop_ok emit
      { cells := [Component.endpoint (Endpoint.UnmarshalYAML sampleEndpoint Endpoint.zero).1,
                  Component.ingress Ingress.zero, Component.egress Egress.zero] }
      [0] [d] "" (by simpa [Store.load] using hy)
    simpa [Module.MarshalText, terminated] using this
  · intro d
    have hs : separated [d] = d := rfl
    exact ⟨hs, by rw [hs]; exact append_marker_ne d⟩

/-- C13, amended.  When every component of a module encodes, `MarshalText`
returns the encodings in component order, each followed by the marker; the
empty module gives the empty text; when a component does not encode it returns
an error and no text. -/
theorem marshalText_segments_terminated (emit : Node → Except Err String) (σ : Store)
    (m : Module) :
    (∀ ds : List String,
        m.map (fun a => yamlMarshal emit (σ.load a)) = ds.map Except.ok →
        Module.MarshalText emit σ m = (terminated ds, none))
      ∧ Module.MarshalText emit σ [] = ("", none)
      ∧ (∀ a ∈ m, ∀ err, yamlMarshal emit (σ.load a) = Except.error err →
        ∃ err', Module.MarshalText emit σ m = ("", some err')) := by
  refine ⟨?_, rfl, ?_⟩
  · intro ds h
    have := marshalLoop_ok emit σ m ds "" h
    simpa [Module.MarshalText] using this
  · intro a ha err herr
    exact marshalLoop_error emit σ herr m "" ha

/-- Witness of the amended C13: an endpoint and a Kafka ingress, with an
emitter that writes the kind of a component on one line. -/
theorem marshalText_segments_terminated_witness :
    Module.MarshalText (fun n => Except.ok (Node.text (n.lookup "kind") ++ "\n"))
        (Module.UnmarshalYAML (legacyModule [sampleEndpoint] [sampleKafkaIngress] [])
          Store.empty []).1.1
        (Module.UnmarshalYAML (legacyModule [sampleEndpoint] [sampleKafkaIngress] [])
          Store.empty []).1.2
      = (terminated ["io.statefun.endpoints.v2/http\n", "io.statefun.kafka.v1/ingress\n"], none) :=
  (marshalText_segments_terminated (fun n => Except.ok (Node.text (n.lookup "kind") ++ "\n"))
      (Module.UnmarshalYAML (legacyModule [sampleEndpoint] [sampleKafkaIngress] [])
        Store.empty []).1.1
      (Module.UnmarshalYAML (legacyModule [sampleEndpoint] [sampleKafkaIngress] [])
        Store.empty []).1.2).1
    ["io.statefun.endpoints.v2/http\n", "io.statefun.kafka.v1/ingress\n"] rfl

/-! ## Lemmas on the encoded components -/

/-- The tree of any component: the keys `kind` and `spec`, in that order. -/
theorem encodeComponent_some (comp : Component) :
    encodeComponent (some comp)
      = Except.ok (Node.map [("kind", Node.str comp.Kind), ("spec", comp.specNode)]) := by
  cases comp <;> rfl

/-- Every component of a built module is a loop variable of one of the three
loops. -/
theorem component_of_built {n : Node} {σ σ' : Store} {m m' : Module}
    (h : Module.UnmarshalYAML n σ m = ((σ', m'), none)) {c : Option Component}
    (hc : c ∈ Module.components σ' m') :
    ∃ legacy, decodeLegacyModule n = Except.ok (legacy, false)
      ∧ ((legacy.Endpoints ≠ [] ∧ c = some ((legacy.Endpoints.map Component.endpoint).getLast?.getD
            (Component.endpoint Endpoint.zero)))
        ∨ (legacy.Ingresses ≠ [] ∧ c = some ((legacy.Ingresses.map Component.ingress).getLast?.getD
            (Component.ingress Ingress.zero)))
        ∨ (legacy.Egresses ≠ [] ∧ c = some ((legacy.Egresses.map Component.egress).getLast?.getD
            (Component.egress Egress.zero)))) := by
  obtain ⟨legacy, hl⟩ := unmarshal_module_success h
  refine ⟨legacy, hl, ?_⟩
  have hcomp := components_of_built hl σ m
  rw [h] at hcomp
  simp only at hcomp
  rw [hcomp] at hc
  simp only [List.mem_append, List.mem_replicate] at hc
  rcases hc with (⟨hn, rfl⟩ | ⟨hn, rfl⟩) | ⟨hn, rfl⟩
  · exact Or.inl ⟨by intro h0; simp [h0] at hn, rfl⟩
  · exact Or.inr (Or.inl ⟨by intro h0; simp [h0] at hn, rfl⟩)
  · exact Or.inr (Or.inr ⟨by intro h0; simp [h0] at hn, rfl⟩)

/-- C14.  For every component of a successfully built module, the tree handed
to the encoder is a mapping of exactly the two keys `kind` and `spec`, in that
order, holding the component's `Kind` and `Spec`: no wrapper key and no `meta`. -/
theorem component_encoded_as_kind_and_spec (doc : Node) (σ σ' : Store) (m m' : Module)
    (h : Module.UnmarshalYAML doc σ m = ((σ', m'), none)) :
    ∀ c ∈ Module.components σ' m', ∃ comp, c = some comp
      ∧ encodeComponent c
          = Except.ok (Node.map [("kind", Node.str comp.Kind), ("spec", comp.specNode)]) := by
  intro c hc
  obtain ⟨legacy, _, hcase⟩ := component_of_built h hc
  rcases hcase with ⟨_, rfl⟩ | ⟨_, rfl⟩ | ⟨_, rfl⟩
  · exact ⟨_, rfl, encodeComponent_some _⟩
  · exact ⟨_, rfl, encodeComponent_some _⟩
  · exact ⟨_, rfl, encodeComponent_some _⟩

/-- Witness of C14: the Kafka ingress of a module with one endpoint and one
ingress. -/
theorem component_encoded_as_kind_and_spec_witness :
    (Module.UnmarshalYAML (legacyModule [sampleEndpoint] [sampleKafkaIngress] [])
        Store.empty []).2 = none
      ∧ ∃ comp, some (Component.ingress (Ingress.UnmarshalYAML sampleKafkaIngress Ingress.zero).1)
            = some comp
          ∧ encodeComponent
              (some (Component.ingress (Ingress.UnmarshalYAML sampleKafkaIngress Ingress.zero).1))
            = Except.ok (Node.map [("kind", Node.str comp.Kind), ("spec", comp.specNode)]) :=
  ⟨rfl,
   component_encoded_as_kind_and_spec (legacyModule [sampleEndpoint] [sampleKafkaIngress] [])
     Store.empty _ [] _ rfl
     (some (Component.ingress (Ingress.UnmarshalYAML sampleKafkaIngress Ingress.zero).1))
     (List.Mem.tail _ (List.Mem.head _))⟩

/-! ## Documents without the expected keys -/

/-- C15, as stated, fails.  The empty top-level mapping, which lacks `module`,
and a document whose `module` mapping lacks `spec` are both accepted by
`Module.UnmarshalYAML`: it returns no error and an empty component list. -/
theorem module_without_keys_accepted :
    (Node.map []).path ["module"] = none
      ∧ Module.UnmarshalYAML (Node.map []) Store.empty []
          = (({ cells := [Component.endpoint Endpoint.zero, Component.ingress Ingress.zero,
                          Component.egress Egress.zero] }, []), none)
      ∧ (Node.map [("module", Node.map [("meta", Node.map [("type", Node.str "remote")])])]).path
          ["module", "spec"] = none
      ∧ Module.UnmarshalYAML
          (Node.map [("module", Node.map [("meta", Node.map [("type", Node.str "remote")])])])
          Store.empty []
          = (({ cells := [Component.endpoint Endpoint.zero, Component.ingress Ingress.zero,
                          Component.egress Egress.zero] }, []), none) :=
  ⟨rfl, rfl, rfl, rfl⟩

/-- C15, amended.  On a top-level mapping that lacks `module`, or whose
`module` mapping lacks `spec`, `Module.UnmarshalYAML` succeeds with an empty
component list; it fails with the type error of the decoder, leaving the
module as it was, when the document, `module` or `spec` is a scalar or a
sequence. -/
theorem module_missing_keys_give_empty_module (doc : Node) (σ : Store) (m : Module) :
    ((∃ es, doc = Node.map es
        ∧ (es.lookup "module" = none
          ∨ ∃ ms, es.lookup "module" = some (Node.map ms) ∧ ms.lookup "spec" = none)) →
      (Module.UnmarshalYAML doc σ m).2 = none ∧ (Module.UnmarshalYAML doc σ m).1.2 = [])
    ∧ ((absentOrMapping (some doc) = false
          ∨ absentOrMapping (doc.path ["module"]) = false
          ∨ absentOrMapping (doc.path ["module", "spec"]) = false) →
      Module.UnmarshalYAML doc σ m
        = ((σ, m), some (Err.wrap "failed to unmarshal module.yaml" Err.typeError))) := by
  constructor
  · rintro ⟨es, rfl, h⟩
    have hd : decodeLegacyModule (Node.map es) = Except.ok (LegacySpec.zero, false) := by
      rcases h with h | ⟨ms, h1, h2⟩
      · simp [decodeLegacyModule, h]
      · simp [decodeLegacyModule, h1, h2, decodeLegacySpec]
    rw [unmarshal_module_ok hd]
    exact ⟨rfl, rfl⟩
  · intro h
    have hd : ∃ l, decodeLegacyModule doc = Except.ok (l, true) := by
      cases doc with
      | null => simp [absentOrMapping, Node.path, Node.lookup] at h
      | scalar t s => exact ⟨LegacySpec.zero, rfl⟩
      | seq xs => exact ⟨LegacySpec.zero, rfl⟩
      | map es =>
        simp only [absentOrMapping, Node.path, Node.lookup, false_or] at h
        cases hm : List.lookup "module" es with
        | none => simp [hm, absentOrMapping] at h
        | some x =>
          cases x with
          | null => simp [hm, absentOrMapping, Node.lookup] at h
          | scalar t s => exact ⟨LegacySpec.zero, by simp [decodeLegacyModule, hm]⟩
          | seq xs => exact ⟨LegacySpec.zero, by simp [decodeLegacyModule, hm]⟩
          | map ms =>
            simp only [hm, Option.some_bind, absentOrMapping, Node.lookup, false_or] at h
            cases hs : List.lookup "spec" ms with
            | none => simp [hs, absentOrMapping] at h
            | some y =>
              cases y with
              | null => simp [hs, absentOrMapping] at h
              | scalar t s => exact ⟨LegacySpec.zero, by simp [decodeLegacyModule, hm, hs, decodeLegacySpec]⟩
              | seq xs => exact ⟨LegacySpec.zero, by simp [decodeLegacyModule, hm, hs, decodeLegacySpec]⟩
              | map ss => simp [hs, absentOrMapping] at h
    obtain ⟨l, hl⟩ := hd
    simp [Module.UnmarshalYAML, hl]

/-- Witness of the amended C15: a document without `module`, and a document
whose `module` is a scalar. -/
theorem module_missing_keys_give_empty_module_witness :
    ((Module.UnmarshalYAML (Node.map [("kind", Node.str "x")]) Store.empty []).2 = none
        ∧ (Module.UnmarshalYAML (Node.map [("kind", Node.str "x")]) Store.empty []).1.2 = [])
      ∧ Module.UnmarshalYAML (Node.map [("module", Node.str "x")]) Store.empty []
        = ((Store.empty, []), some (Err.wrap "failed to unmarshal module.yaml" Err.typeError)) :=
  ⟨(module_missing_keys_give_empty_module (Node.map [("kind", Node.str "x")]) Store.empty []).1
      ⟨_, rfl, Or.inl rfl⟩,
   (module_missing_keys_give_empty_module (Node.map [("module", Node.str "x")]) Store.empty []).2
      (Or.inr (Or.inl rfl))⟩

/-- The legacy endpoint decoded from a mapping without the key `endpoint`. -/
theorem decodeLegacyEndpoint_absent {es : List (String × Node)}
    (h : es.lookup "endpoint" = none) :
    decodeLegacyEndpoint (Node.map es)
      = some { MetaKind := "", Spec := Endpoint.zero.Spec } := by
  simp [decodeLegacyEndpoint, decStruct, Node.lookup, h]

/-- C16, as stated, fails.  The empty mapping, which has no `endpoint` key, is
accepted by `Endpoint.UnmarshalYAML`: it returns no error and an endpoint with
empty functions and URL path template. -/
theorem endpoint_without_key_accepted :
    (Node.map []).path ["endpoint"] = none
      ∧ Endpoint.UnmarshalYAML (Node.map []) Endpoint.zero
          = ({ Kind := "io.statefun.endpoints.v2/http",
               Spec := { Functions := "", UrlPathTemplate := "", Timeouts := none } }, none) :=
  ⟨rfl, rfl⟩

/-- C16, amended.  On a mapping without an `endpoint` key,
`Endpoint.UnmarshalYAML` succeeds with the fixed kind, empty functions and URL
path template and no timeouts; it fails with the type error of the decoder,
leaving the receiver as it was, when the document or the value under
`endpoint` is a scalar or a sequence. -/
theorem endpoint_missing_key_gives_empty_endpoint (doc : Node) (e0 : Endpoint) :
    ((∃ es, doc = Node.map es ∧ es.lookup "endpoint" = none) →
      Endpoint.UnmarshalYAML doc e0
        = ({ Kind := "io.statefun.endpoints.v2/http",
             Spec := { Functions := "", UrlPathTemplate := "", Timeouts := none } }, none))
    ∧ ((absentOrMapping (some doc) = false ∨ absentOrMapping (doc.path ["endpoint"]) = false) →
      Endpoint.UnmarshalYAML doc e0
        = (e0, some (Err.wrap "failed to unmarshal legacy endpoint" Err.typeError))) := by
  constructor
  · rintro ⟨es, rfl, h⟩
    simp only [Endpoint.UnmarshalYAML, decodeLegacyEndpoint_absent h]
    rfl
  · intro h
    have hd : decodeLegacyEndpoint doc = none := by
      cases doc with
      | null => simp [absentOrMapping, Node.path, Node.lookup] at h
      | scalar t s => rfl
      | seq xs => rfl
      | map es =>
        simp only [absentOrMapping, Node.path, Node.lookup, false_or] at h
        cases hm : List.lookup "endpoint" es with
        | none => simp [hm, absentOrMapping] at h
        | some x =>
          cases x with
          | null => simp [hm, absentOrMapping] at h
          | scalar t s => simp [decodeLegacyEndpoint, decStruct, Node.lookup, hm]
          | seq xs => simp [decodeLegacyEndpoint, decStruct, Node.lookup, hm]
          | map ms => simp [hm, absentOrMapping] at h
    simp [Endpoint.UnmarshalYAML, hd]

/-- Witness of the amended C16: an ingress document handed to the endpoint
mapper, and a document whose `endpoint` is a sequence. -/
theorem endpoint_missing_key_gives_empty_endpoint_witness :
    Endpoint.UnmarshalYAML sampleKafkaIngress Endpoint.zero
        = ({ Kind := "io.statefun.endpoints.v2/http",
             Spec := { Functions := "", UrlPathTemplate := "", Timeouts := none } }, none)
      ∧ Endpoint.UnmarshalYAML (Node.map [("endpoint", Node.seq [])]) Endpoint.zero
        = (Endpoint.zero, some (Err.wrap "failed to unmarshal legacy endpoint" Err.typeError)) :=
  ⟨(endpoint_missing_key_gives_empty_endpoint sampleKafkaIngress Endpoint.zero).1 ⟨_, rfl, rfl⟩,
   (endpoint_missing_key_gives_empty_endpoint (Node.map [("endpoint", Node.seq [])])
      Endpoint.zero).2 (Or.inr rfl)⟩

/-! ## The dispatch key of an egress -/

/-- The first pass on a mapping depends on the value under the wrapper key
only. -/
theorem decodeTypeProbe_congr {w : String} {es1 es2 : List (String × Node)}
    (h : es1.lookup w = es2.lookup w) :
    decodeTypeProbe w (Node.map es1) = decodeTypeProbe w (Node.map es2) := by
  simp [decodeTypeProbe, decStruct, Node.lookup, h]

/-- The second pass on a mapping depends on the value under the wrapper key
only. -/
theorem decodeLegacy_congr {S : Type} {w : String} (zero : S) (spec : Node → Option S)
    {es1 es2 : List (String × Node)} (h : es1.lookup w = es2.lookup w) :
    decodeLegacy w zero spec (Node.map es1) = decodeLegacy w zero spec (Node.map es2) := by
  simp [decodeLegacy, decStruct, Node.lookup, h]

/-- C17.  `Egress.UnmarshalYAML` dispatches on the value at
`egress.meta.type`: two mappings with the same value under `egress` give the
same result whatever else they hold, and a document of the legacy shape with
nothing at `egress.meta.type` is rejected as an unknown type whatever it holds
under `ingress`. -/
theorem egress_dispatch_reads_egress_path :
    (∀ (es1 es2 : List (String × Node)) (e : Egress),
      es1.lookup "egress" = es2.lookup "egress" →
      Egress.UnmarshalYAML (Node.map es1) e = Egress.UnmarshalYAML (Node.map es2) e)
    ∧ (∀ (doc : Node) (e : Egress),
      absentOrMapping (some doc) = true →
      absentOrMapping (doc.path ["egress"]) = true →
      absentOrMapping (doc.path ["egress", "meta"]) = true →
      doc.path ["egress", "meta", "type"] = none →
      Egress.UnmarshalYAML doc e = (e, some (Err.errorf "unknown ingress type "))) := by
  constructor
  · intro es1 es2 e h
    simp only [Egress.UnmarshalYAML, decodeTypeProbe_congr h,
      decodeLegacy_congr KafkaEgressSpec.zero decodeKafkaEgressSpec h,
      decodeLegacy_congr KinesisEgressSpec.zero decodeKinesisEgressSpec h]
  · intro doc e h1 h2 h3 h4
    have hp : decodeTypeProbe "egress" doc = some "" := by
      rw [decodeTypeProbe_eq, if_pos ⟨h1, h2, h3⟩, h4]
      rfl
    have hk : ¬ ("" = "io.statefun.kafka/egress") := by decide
    have hi : ¬ ("" = "io.statefun.kinesis/ingress") := by decide
    simp only [Egress.UnmarshalYAML, hp, if_neg hk, if_neg hi]
    rfl

/-- Witness of C17: an egress document with a recognized type below `ingress`
only is rejected, and its result is the one of the same document without the
`ingress` key. -/
theorem egress_dispatch_reads_egress_path_witness :
    Node.text (egressTypedBelowIngress.path ["ingress", "meta", "type"])
        = "io.statefun.kafka/egress"
      ∧ Egress.UnmarshalYAML egressTypedBelowIngress Egress.zero
        = (Egress.zero, some (Err.errorf "unknown ingress type "))
      ∧ Egress.UnmarshalYAML
          (Node.map
            [("egress", Node.map
                [("meta", Node.map [("id", Node.str "out")]),
                 ("spec", Node.map [("address", Node.str "kafka:9092")])]),
             ("ingress", Node.map
                [("meta", Node.map [("type", Node.str "io.statefun.kafka/egress")])])])
          Egress.zero
        = Egress.UnmarshalYAML
          (Node.map
            [("egress", Node.map
                [("meta", Node.map [("id", Node.str "out")]),
                 ("spec", Node.map [("address", Node.str "kafka:9092")])])])
          Egress.zero :=
  ⟨rfl,
   egress_dispatch_reads_egress_path.2 egressTypedBelowIngress Egress.zero rfl rfl rfl rfl,
   egress_dispatch_reads_egress_path.1 _ _ Egress.zero rfl⟩

/-! ## Lemmas on the keys of a canonical spec -/

/-- Outside `address`, a present value is a present non-empty optional value. -/
theorem presentValue_optional {k : String} (hk : k ≠ "address") (v : Node) :
    PresentValue k v ↔ PresentNonEmpty k v := by
  by_cases hg : k = "consumerGroupId"
  · simp [PresentValue, PresentNonEmpty, hg]
  · simp [PresentValue, PresentNonEmpty, hg, hk]

/-- A string field that is present holds the text of its legacy value. -/
theorem string_field_kept {o : Option Node} {f : String} {v : Node} (hf : f = Node.text o)
    (ho : o = some v) : Node.str f = Node.str (Node.text (some v)) := by
  subst ho
  subst hf
  rfl

/-- The required fields of a decoded Kafka ingress spec, by their keys. -/
theorem decodeKafkaIngressSpec_required {o : Option Node} {s : KafkaIngressSpec}
    (h : decStruct KafkaIngressSpec.zero decodeKafkaIngressSpec o = some s) :
    s.Address = Node.text (o.bind (Node.lookup "address"))
      ∧ s.Topics = (o.bind (Node.lookup "topics")).getD Node.null := by
  rcases decStruct_some h with ⟨hz, hk⟩ | ⟨es, ho, hf⟩
  · rw [hk "address", hk "topics", hz]
    exact ⟨rfl, rfl⟩
  · subst ho
    simp only [decodeKafkaIngressSpec] at hf
    split at hf
    · simp at hf
    · split at hf
      · simp at hf
      · next a ha =>
        split at hf
        · simp at hf
        · simp at hf
          subst hf
          exact ⟨by simpa using (decString_some ha).1, by simp [decIface_eq]⟩

/-- The required field of a decoded Kafka egress spec, by its key. -/
theorem decodeKafkaEgressSpec_required {o : Option Node} {s : KafkaEgressSpec}
    (h : decStruct KafkaEgressSpec.zero decodeKafkaEgressSpec o = some s) :
    s.Address = Node.text (o.bind (Node.lookup "address")) := by
  rcases decStruct_some h with ⟨hz, hk⟩ | ⟨es, ho, hf⟩
  · rw [hk "address", hz]
    rfl
  · subst ho
    simp only [decodeKafkaEgressSpec] at hf
    split at hf
    · simp at hf
    · split at hf
      · simp at hf
      · next a ha =>
        simp at hf
        subst hf
        simpa using (decString_some ha).1

/-- The keys of an encoded Kafka ingress spec. -/
theorem kafkaIngress_keys {o : Option Node} {s : KafkaIngressSpec}
    (h : decStruct KafkaIngressSpec.zero decodeKafkaIngressSpec o = some s) (id k : String) :
    (k ∉ fieldKeys (SpecValue.kafkaIngress s) →
        (encodeKafkaIngressSpec { s with Id := id }).lookup k = none)
      ∧ (k ∈ fieldKeys (SpecValue.kafkaIngress s) → k ≠ "id" →
        ∀ v, o.bind (Node.lookup k) = some v → PresentValue k v →
          (encodeKafkaIngressSpec { s with Id := id }).lookup k = some (emittedValue k v)) := by
  constructor
  · intro hk
    simp only [fieldKeys, List.mem_cons, List.mem_singleton, List.not_mem_nil, or_false,
      not_or] at hk
    obtain ⟨h1, h2, h3, h4, h5, h6⟩ := hk
    have b1 : (k == "id") = false := by simpa using h1
    have b2 : (k == "address") = false := by simpa using h2
    have b6 : (k == "topics") = false := by simpa using h6
    simp [encodeKafkaIngressSpec, Node.lookup, List.lookup, lookup_omitEmptyString_append,
      lookup_omitEmpty_append, b1, b2, b6, h3, h4, h5]
  · intro hk hid v hv hp
    simp only [fieldKeys, List.mem_cons, List.mem_singleton, List.not_mem_nil, or_false] at hk
    rcases hk with rfl | rfl | rfl | rfl | rfl | rfl
    · exact absurd rfl hid
    · have hs := string_field_kept (decodeKafkaIngressSpec_required h).1 hv
      simp only [encodeKafkaIngressSpec, Node.lookup, List.append_assoc, List.cons_append,
        List.nil_append, List.lookup_cons]
      simpa [emittedValue] using hs
    · exact (kafkaIngress_optional h id "consumerGroupId" (by simp [optionalKeys])).2 v hv
        ((presentValue_optional (by decide) v).mp hp)
    · exact (kafkaIngress_optional h id "startupPosition" (by simp [optionalKeys])).2 v hv
        ((presentValue_optional (by decide) v).mp hp)
    · exact (kafkaIngress_optional h id "properties" (by simp [optionalKeys])).2 v hv
        ((presentValue_optional (by decide) v).mp hp)
    · have ht := (decodeKafkaIngressSpec_required h).2
      rw [hv] at ht
      simp only [encodeKafkaIngressSpec, Node.lookup, List.append_assoc, List.cons_append,
        List.nil_append, List.lookup_cons, lookup_omitEmptyString_append,
        lookup_omitEmpty_append]
      simpa [emittedValue] using congrArg Node.canon ht

/-- The keys of an encoded Kinesis ingress spec. -/
theorem kinesisIngress_keys {o : Option Node} {s : KinesisIngressSpec}
    (h : decStruct KinesisIngressSpec.zero decodeKinesisIngressSpec o = some s) (id k : String) :
    (k ∉ fieldKeys (SpecValue.kinesisIngress s) →
        (encodeKinesisIngressSpec { s with Id := id }).lookup k = none)
      ∧ (k ∈ fieldKeys (SpecValue.kinesisIngress s) → k ≠ "id" →
        ∀ v, o.bind (Node.lookup k) = some v → PresentValue k v →
          (encodeKinesisIngressSpec { s with Id := id }).lookup k = some (emittedValue k v)) := by
  constructor
  · intro hk
    simp only [fieldKeys, List.mem_cons, List.mem_singleton, List.not_mem_nil, or_false,
      not_or] at hk
    obtain ⟨h1, h2, h3, h4, h5, h6⟩ := hk
    have b1 : (k == "id") = false := by simpa using h1
    simp [encodeKinesisIngressSpec, Node.lookup, List.lookup, lookup_omitEmpty,
      lookup_omitEmpty_append, b1, h2, h3, h4, h5, h6]
  · intro hk hid v hv hp
    simp only [fieldKeys, List.mem_cons, List.mem_singleton, List.not_mem_nil, or_false] at hk
    rcases hk with rfl | rfl | rfl | rfl | rfl | rfl
    · exact absurd rfl hid
    · exact (kinesisIngress_optional h id "awsRegion" (by simp [optionalKeys])).2 v hv
        ((presentValue_optional (by decide) v).mp hp)
    · exact (kinesisIngress_optional h id "awsCredentials" (by simp [optionalKeys])).2 v hv
        ((presentValue_optional (by decide) v).mp hp)
    · exact (kinesisIngress_optional h id "startupPosition" (by simp [optionalKeys])).2 v hv
        ((presentValue_optional (by decide) v).mp hp)
    · exact (kinesisIngress_optional h id "streams" (by simp [optionalKeys])).2 v hv
        ((presentValue_optional (by decide) v).mp hp)
    · exact (kinesisIngress_optional h id "clientConfigProperties"
        (by simp [optionalKeys])).2 v hv ((presentValue_optional (by decide) v).mp hp)

/-- The keys of an encoded Kafka egress spec. -/
theorem kafkaEgress_keys {o : Option Node} {s : KafkaEgressSpec}
    (h : decStruct KafkaEgressSpec.zero decodeKafkaEgressSpec o = some s) (id k : String) :
    (k ∉ fieldKeys (SpecValue.kafkaEgress s) →
        (encodeKafkaEgressSpec { s with Id := id }).lookup k = none)
      ∧ (k ∈ fieldKeys (SpecValue.kafkaEgress s) → k ≠ "id" →
        ∀ v, o.bind (Node.lookup k) = some v → PresentValue k v →
          (encodeKafkaEgressSpec { s with Id := id }).lookup k = some (emittedValue k v)) := by
  constructor
  · intro hk
    simp only [fieldKeys, List.mem_cons, List.mem_singleton, List.not_mem_nil, or_false,
      not_or] at hk
    obtain ⟨h1, h2, h3, h4⟩ := hk
    have b1 : (k == "id") = false := by simpa using h1
    have b2 : (k == "address") = false := by simpa using h2
    simp [encodeKafkaEgressSpec, Node.lookup, List.lookup, lookup_omitEmpty,
      lookup_omitEmpty_append, b1, b2, h3, h4]
  · intro hk hid v hv hp
    simp only [fieldKeys, List.mem_cons, List.mem_singleton, List.not_mem_nil, or_false] at hk
    rcases hk with rfl | rfl | rfl | rfl
    · exact absurd rfl hid
    · have hs := string_field_kept (decodeKafkaEgressSpec_required h) hv
      simp only [encodeKafkaEgressSpec, Node.lookup, List.append_assoc, List.cons_append,
        List.nil_append, List.lookup_cons]
      simpa [emittedValue] using hs
    · exact (kafkaEgress_optional h id "deliverySemantic" (by simp [optionalKeys])).2 v hv
        ((presentValue_optional (by decide) v).mp hp)
    · exact (kafkaEgress_optional h id "properties" (by simp [optionalKeys])).2 v hv
        ((presentValue_optional (by decide) v).mp hp)

/-- The keys of an encoded Kinesis egress spec. -/
theorem kinesisEgress_keys {o : Option Node} {s : KinesisEgressSpec}
    (h : decStruct KinesisEgressSpec.zero decodeKinesisEgressSpec o = some s) (id k : String) :
    (k ∉ fieldKeys (SpecValue.kinesisEgress s) →
        (encodeKinesisEgressSpec { s with Id := id }).lookup k = none)
      ∧ (k ∈ fieldKeys (SpecValue.kinesisEgress s) → k ≠ "id" →
        ∀ v, o.bind (Node.lookup k) = some v → PresentValue k v →
          (encodeKinesisEgressSpec { s with Id := id }).lookup k = some (emittedValue k v)) := by
  constructor
  · intro hk
    simp only [fieldKeys, List.mem_cons, List.mem_singleton, List.not_mem_nil, or_false,
      not_or] at hk
    obtain ⟨h1, h2, h3, h4, h5⟩ := hk
    have b1 : (k == "id") = false := by simpa using h1
    simp [encodeKinesisEgressSpec, Node.lookup, List.lookup, lookup_omitEmpty,
      lookup_omitEmpty_append, b1, h2, h3, h4, h5]
  · intro hk hid v hv hp
    simp only [fieldKeys, List.mem_cons, List.mem_singleton, List.not_mem_nil, or_false] at hk
    rcases hk with rfl | rfl | rfl | rfl | rfl
    · exact absurd rfl hid
    · exact (kinesisEgress_optional h id "awsRegion" (by simp [optionalKeys])).2 v hv
        ((presentValue_optional (by decide) v).mp hp)
    · exact (kinesisEgress_optional h id "awsCredentials" (by simp [optionalKeys])).2 v hv
        ((presentValue_optional (by decide) v).mp hp)
    · exact (kinesisEgress_optional h id "maxOutstandingRecords"
        (by simp [optionalKeys])).2 v hv ((presentValue_optional (by decide) v).mp hp)
    · exact (kinesisEgress_optional h id "clientConfigProperties"
        (by simp [optionalKeys])).2 v hv ((presentValue_optional (by decide) v).mp hp)

/-- C18, as stated, fails.  A Kafka ingress whose legacy spec holds the extra
key `autoOffsetResetPosition` maps, and its encoded canonical spec has no such
key. -/
theorem unlisted_spec_key_dropped :
    (kafkaIngressWith [("autoOffsetResetPosition", Node.str "earliest")]).path
        ["ingress", "spec", "autoOffsetResetPosition"] = some (Node.str "earliest")
      ∧ (Ingress.UnmarshalYAML
          (kafkaIngressWith [("autoOffsetResetPosition", Node.str "earliest")])
          Ingress.zero).2 = none
      ∧ (encodeIngress (Ingress.UnmarshalYAML
          (kafkaIngressWith [("autoOffsetResetPosition", Node.str "earliest")])
          Ingress.zero).1.MarshalYAML.1).path ["spec", "autoOffsetResetPosition"] = none :=
  ⟨rfl, rfl, rfl⟩

/-- C18, amended.  Whenever an ingress or an egress maps, a key that is not a
field of the spec struct of its variant is missing from the encoded canonical
spec, and a field of the variant other than `id` that is present and not empty
in the legacy spec is found there, holding the value the decoder resolved, in
the form of the encoder (the string of its text for `address` and
`consumerGroupId`); a string value is emitted unchanged. -/
theorem spec_fields_kept_other_keys_dropped (doc : Node) :
    (∀ i0 i : Ingress, Ingress.UnmarshalYAML doc i0 = (i, none) → ∀ k : String,
      (k ∉ fieldKeys i.Spec → (encodeIngress i.MarshalYAML.1).path ["spec", k] = none)
        ∧ (k ∈ fieldKeys i.Spec → k ≠ "id" →
          ∀ v, doc.path ["ingress", "spec", k] = some v → PresentValue k v →
            (encodeIngress i.MarshalYAML.1).path ["spec", k] = some (emittedValue k v)))
    ∧ (∀ e0 e : Egress, Egress.UnmarshalYAML doc e0 = (e, none) → ∀ k : String,
      (k ∉ fieldKeys e.Spec → (encodeEgress e.MarshalYAML.1).path ["spec", k] = none)
        ∧ (k ∈ fieldKeys e.Spec → k ≠ "id" →
          ∀ v, doc.path ["egress", "spec", k] = some v → PresentValue k v →
            (encodeEgress e.MarshalYAML.1).path ["spec", k] = some (emittedValue k v)))
    ∧ (∀ k s : String, emittedValue k (Node.str s) = Node.str s) := by
  refine ⟨?_, ?_, ?_⟩
  · intro i0 i h k
    rw [encodeIngress_spec_path, path_three]
    rcases ingress_success h with ⟨l, hl, rfl⟩ | ⟨l, hl, rfl⟩
    · exact kafkaIngress_keys (decodeLegacy_parts hl).2 l.1.Id k
    · exact kinesisIngress_keys (decodeLegacy_parts hl).2 l.1.Id k
  · intro e0 e h k
    rw [encodeEgress_spec_path, path_three]
    rcases egress_success h with ⟨l, hl, rfl⟩ | ⟨l, hl, rfl⟩
    · exact kafkaEgress_keys (decodeLegacy_parts hl).2 l.1.Id k
    · exact kinesisEgress_keys (decodeLegacy_parts hl).2 l.1.Id k
  · intro k s
    unfold emittedValue
    split <;> rfl

/-- Witness of the amended C18: the address of a Kafka ingress is kept, its
extra key is dropped, and its topics, given as the integer written `0x10`, are
emitted as `16`. -/
theorem spec_fields_kept_other_keys_dropped_witness :
    (encodeIngress (Ingress.UnmarshalYAML
        (kafkaIngressWith [("autoOffsetResetPosition", Node.str "earliest")])
        Ingress.zero).1.MarshalYAML.1).path ["spec", "autoOffsetResetPosition"] = none
      ∧ (encodeIngress (Ingress.UnmarshalYAML
        (kafkaIngressWith [("autoOffsetResetPosition", Node.str "earliest")])
        Ingress.zero).1.MarshalYAML.1).path ["spec", "address"] = some (Node.str "kafka:9092")
      ∧ (encodeIngress (Ingress.UnmarshalYAML
        (Node.map [("ingress", Node.map
          [("meta", Node.map [("type", Node.str "io.statefun.kafka/ingress")]),
           ("spec", Node.map [("topics", Node.scalar (Scalar.int 16) "0x10")])])])
        Ingress.zero).1.MarshalYAML.1).path ["spec", "topics"]
        = some (Node.scalar (Scalar.int 16) "16") :=
  ⟨((spec_fields_kept_other_keys_dropped
        (kafkaIngressWith [("autoOffsetResetPosition", Node.str "earliest")])).1
      Ingress.zero _ rfl "autoOffsetResetPosition").1 (by decide),
   ((spec_fields_kept_other_keys_dropped
        (kafkaIngressWith [("autoOffsetResetPosition", Node.str "earliest")])).1
      Ingress.zero _ rfl "address").2 (by decide) (by decide) _ rfl
      (by simp [PresentValue, Node.str, Node.text]),
   ((spec_fields_kept_other_keys_dropped
        (Node.map [("ingress", Node.map
          [("meta", Node.map [("type", Node.str "io.statefun.kafka/ingress")]),
           ("spec", Node.map [("topics", Node.scalar (Scalar.int 16) "0x10")])])])).1
      Ingress.zero _ rfl "topics").2 (by decide) (by decide) _ rfl
      (by simp [PresentValue])⟩

/-! ## The text written by the command -/

/-- C19 (the code departs from the claim).  For the module of one endpoint
whose URL path template is `/fn/%s`, with `d` the text the library emits for
the component, `MarshalText` returns `d` followed by the marker and `convert`
writes `fmt.Printf` of that text taken as a format, not the text itself. -/
theorem convert_reads_text_as_format (emit : Node → Except Err String) (d : String)
    (h : emit (encodeEndpoint (Endpoint.UnmarshalYAML percentEndpoint Endpoint.zero).1)
      = Except.ok d) :
    Module.MarshalText emit
        (yamlUnmarshal (legacyModule [percentEndpoint] [] []) Store.empty []).1.1
        (yamlUnmarshal (legacyModule [percentEndpoint] [] []) Store.empty []).1.2
      = (d ++ marker, none)
    ∧ convert emit fmtPrintf (Input.document (legacyModule [percentEndpoint] [] []))
      = Outcome.returned (fmtPrintf (d ++ marker)) := by
  have hm : yamlUnmarshal (legacyModule [percentEndpoint] [] []) Store.empty []
      = (({ cells := [Component.endpoint (Endpoint.UnmarshalYAML percentEndpoint Endpoint.zero).1,
                      Component.ingress Ingress.zero, Component.egress Egress.zero] },
           [0]), none) := rfl
  have hy : yamlMarshal emit (some (Component.endpoint
      (Endpoint.UnmarshalYAML percentEndpoint Endpoint.zero).1)) = Except.ok d := by
    simp only [yamlMarshal, encodeComponent, Endpoint.MarshalYAML]
    exact h
  have ht : Module.MarshalText emit
      { cells := [Component.endpoint (Endpoint.UnmarshalYAML percentEndpoint Endpoint.zero).1,
                  Component.ingress Ingress.zero, Component.egress Egress.zero] } [0]
      = (d ++ marker, none) := by
    have := marshalLoop_ok emit
      { cells := [Component.endpoint (Endpoint.UnmarshalYAML percentEndpoint Endpoint.zero).1,
                  Component.ingress Ingress.zero, Component.egress Egress.zero] }
      [0] [d] "" (by simpa [Store.load] using hy)
    simpa [Module.MarshalText, terminated] using this
  refine ⟨by rw [hm]; exact ht, ?_⟩
  simp only [convert, hm, ht]

/-- Witness of C19: with the text yaml.v2 emits for that component, the text
written to standard output has `%!s(MISSING)` in the place of `%s`. -/
theorem convert_reads_text_as_format_witness :
    convert (fun _ => Except.ok percentEndpointText) fmtPrintf
        (Input.document (legacyModule [percentEndpoint] [] []))
      = Outcome.returned
          ("kind: io.statefun.endpoints.v2/http\nspec:\n  functions: ns/fn\n" ++
            "  urlPathTemplate: /fn/%!s(MISSING)\n  timeouts: \x7b\x7d\n---\n")
    ∧ (Module.MarshalText (fun _ => Except.ok percentEndpointText)
        (yamlUnmarshal (legacyModule [percentEndpoint] [] []) Store.empty []).1.1
        (yamlUnmarshal (legacyModule [percentEndpoint] [] []) Store.empty []).1.2).1
      = "kind: io.statefun.endpoints.v2/http\nspec:\n  functions: ns/fn\n" ++
          "  urlPathTemplate: /fn/%s\n  timeouts: \x7b\x7d\n---\n" :=
  ⟨(convert_reads_text_as_format (fun _ => Except.ok percentEndpointText) percentEndpointText
      rfl).2,
   congrArg Prod.fst
     (convert_reads_text_as_format (fun _ => Except.ok percentEndpointText) percentEndpointText
       rfl).1⟩

/-! ## Lemmas on the kinds of the components -/

/-- A successful `Endpoint.UnmarshalYAML` sets the fixed kind. -/
theorem endpoint_success_kind {n : Node} {e0 e : Endpoint}
    (h : Endpoint.UnmarshalYAML n e0 = (e, none)) : e.Kind = "io.statefun.endpoints.v2/http" := by
  unfold Endpoint.UnmarshalYAML at h
  split at h
  · simp at h
  · simp only [Prod.mk.injEq, and_true] at h
    subst h
    rfl

/-- The elements decoded from a sequence without null element all come from a
successful call of the mapper. -/
theorem decodeElements_mapped {T : Type} (zero : T) (unmarshal : Node → T → T × Option Err) :
    ∀ (items : List Node) (xs : List T), Node.null ∉ items →
      decodeElements zero unmarshal items = Except.ok xs →
      ∀ x ∈ xs, ∃ n, unmarshal n zero = (x, none) := by
  intro items
  induction items with
  | nil =>
    intro xs _ h x hx
    simp [decodeElements] at h
    subst h
    simp at hx
  | cons a rest ih =>
    intro xs hnull h x hx
    have hrest : Node.null ∉ rest := fun hmem => hnull (List.mem_cons_of_mem _ hmem)
    have step : ∀ (y : T) (oe : Option Err), unmarshal a zero = (y, oe) →
        (match unmarshal a zero with
          | (_, some e) => Except.error e
          | (x, none) =>
            match decodeElements zero unmarshal rest with
            | Except.error e => Except.error e
            | Except.ok xs => Except.ok (x :: xs)) = Except.ok xs →
        ∃ n, unmarshal n zero = (x, none) := by
      intro y oe hu hm
      rw [hu] at hm
      cases oe with
      | some e => simp at hm
      | none =>
        cases hr : decodeElements zero unmarshal rest with
        | error e => simp [hr] at hm
        | ok ys =>
          simp [hr] at hm
          subst hm
          rcases List.mem_cons.mp hx with h1 | h1
          · subst h1; exact ⟨a, hu⟩
          · exact ih ys hrest hr x h1
    cases a with
    | null => exact absurd (List.mem_cons_self _ _) hnull
    | scalar t s =>
      cases hu : unmarshal (Node.scalar t s) zero with
      | mk y oe => exact step y oe hu (by simpa [decodeElements] using h)
    | seq zs =>
      cases hu : unmarshal (Node.seq zs) zero with
      | mk y oe => exact step y oe hu (by simpa [decodeElements] using h)
    | map es =>
      cases hu : unmarshal (Node.map es) zero with
      | mk y oe => exact step y oe hu (by simpa [decodeElements] using h)

/-- A property of the mapped elements holds of a decoded slice when it held of
the old one and the node has no null element. -/
theorem decodeSlice_forall {T : Type} (zero : T) (unmarshal : Node → T → T × Option Err)
    (P : T → Prop) (hP : ∀ n x, unmarshal n zero = (x, none) → P x)
    {old : List T} (hold : ∀ x ∈ old, P x) {flag : Bool} {v : Node}
    (hnull : ∀ items, v = Node.seq items → Node.null ∉ items) {r : List T × Bool}
    (h : decodeSlice zero unmarshal old flag v = Except.ok r) : ∀ x ∈ r.1, P x := by
  cases v with
  | null =>
    simp [decodeSlice] at h
    subst h
    intro x hx
    simp at hx
  | scalar t s =>
    simp [decodeSlice] at h
    subst h
    exact hold
  | map es =>
    simp [decodeSlice] at h
    subst h
    exact hold
  | seq items =>
    simp only [decodeSlice] at h
    cases hd : decodeElements zero unmarshal items with
    | error e => simp [hd] at h
    | ok xs =>
      simp [hd] at h
      subst h
      intro x hx
      obtain ⟨n, hn⟩ := decodeElements_mapped zero unmarshal items xs (hnull items rfl) hd x hx
      exact hP n x hn

/-- The kinds of the decoded groups are kept by the decoder of `module.spec`
when no sequence has a null element. -/
theorem decodeGroups_kinds :
    ∀ (es : List (String × Node)) (st st' : LegacySpec × Bool),
      (∀ kv ∈ es, ∀ items, kv.2 = Node.seq items → Node.null ∉ items) →
      decodeGroups es st = Except.ok st' → GroupKinds st.1 → GroupKinds st'.1 := by
  intro es
  induction es with
  | nil =>
    intro st st' _ h hg
    simp [decodeGroups] at h
    subst h
    exact hg
  | cons kv rest ih =>
    intro st st' hnull h hg
    obtain ⟨k, v⟩ := kv
    have hv : ∀ items, v = Node.seq items → Node.null ∉ items :=
      fun items hi => hnull (k, v) (List.mem_cons_self _ _) items hi
    have hrest : ∀ kv ∈ rest, ∀ items, kv.2 = Node.seq items → Node.null ∉ items :=
      fun kv hkv => hnull kv (List.mem_cons_of_mem _ hkv)
    unfold decodeGroups at h
    split at h
    · split at h
      · simp at h
      · next r hr =>
        refine ih _ st' hrest h ⟨?_, hg.2.1, hg.2.2⟩
        exact decodeSlice_forall Endpoint.zero Endpoint.UnmarshalYAML _
          (fun n x hx => endpoint_success_kind hx) hg.1 hv hr
    · split at h
      · split at h
        · simp at h
        · next r hr =>
          refine ih _ st' hrest h ⟨hg.1, ?_, hg.2.2⟩
          exact decodeSlice_forall Ingress.zero Ingress.UnmarshalYAML _
            (fun n x hx => by
              rcases ingress_success hx with ⟨l, _, rfl⟩ | ⟨l, _, rfl⟩
              · exact Or.inl rfl
              · exact Or.inr rfl) hg.2.1 hv hr
      · split at h
        · split at h
          · simp at h
          · next r hr =>
            refine ih _ st' hrest h ⟨hg.1, hg.2.1, ?_⟩
            exact decodeSlice_forall Egress.zero Egress.UnmarshalYAML _
              (fun n x hx => by
                rcases egress_success hx with ⟨l, _, rfl⟩ | ⟨l, _, rfl⟩
                · exact Or.inl rfl
                · exact Or.inr rfl) hg.2.2 hv hr
        · exact ih st st' hrest h hg

/-- The zero value of the decoded groups has no element. -/
theorem groupKinds_zero : GroupKinds LegacySpec.zero := by
  refine ⟨?_, ?_, ?_⟩ <;> intro x hx <;> simp [LegacySpec.zero] at hx

/-- The groups decoded from a module without null element have canonical
kinds. -/
theorem decodeLegacyModule_kinds {doc : Node} {legacy : LegacySpec} {flag : Bool}
    (h : decodeLegacyModule doc = Except.ok (legacy, flag)) (hnull : NoNullElement doc) :
    GroupKinds legacy := by
  have hz : ∀ {l : LegacySpec} {f f' : Bool},
      (Except.ok (LegacySpec.zero, f) : Except Err (LegacySpec × Bool)) = Except.ok (l, f') →
      GroupKinds l := by
    intro l f f' he
    simp only [Except.ok.injEq, Prod.mk.injEq] at he
    rw [← he.1]
    exact groupKinds_zero
  cases doc with
  | null => exact hz h
  | scalar t s => exact hz h
  | seq xs => exact hz h
  | map es =>
    simp only [decodeLegacyModule] at h
    cases hm : List.lookup "module" es with
    | none => rw [hm] at h; exact hz h
    | some x =>
      rw [hm] at h
      cases x with
      | null => exact hz h
      | scalar t s => exact hz h
      | seq xs => exact hz h
      | map ms =>
        simp only at h
        cases hs : List.lookup "spec" ms with
        | none => rw [hs] at h; exact hz h
        | some y =>
          rw [hs] at h
          cases y with
          | null => exact hz h
          | scalar t s => exact hz h
          | seq xs => exact hz h
          | map ss =>
            simp only [decodeLegacySpec] at h
            have hp : (Node.map es).path ["module", "spec"] = some (Node.map ss) := by
              simp [Node.path, Node.lookup, hm, hs]
            exact decodeGroups_kinds ss _ _ (hnull ss hp) h groupKinds_zero

/-- The last element of a mapped non-empty list is the image of an element. -/
theorem getLast_map_mem {α β : Type} (f : α → β) (z : β) {xs : List α} (h : xs ≠ []) :
    ∃ x ∈ xs, (xs.map f).getLast?.getD z = f x := by
  refine ⟨xs.getLast h, List.getLast_mem h, ?_⟩
  rw [List.getLast?_map, List.getLast?_eq_getLast _ h]
  rfl

/-- C20, as stated, fails.  A module whose `ingresses` holds one null element
is built without error, and its one component has the empty kind, which is
none of the five canonical kinds. -/
theorem null_element_gives_component_without_kind :
    (Module.UnmarshalYAML (legacyModule [] [Node.null] []) Store.empty []).2 = none
      ∧ Module.components
          (Module.UnmarshalYAML (legacyModule [] [Node.null] []) Store.empty []).1.1
          (Module.UnmarshalYAML (legacyModule [] [Node.null] []) Store.empty []).1.2
        = [some (Component.ingress { Kind := "", Spec := SpecValue.nil })]
      ∧ (Component.ingress { Kind := "", Spec := SpecValue.nil }).Kind ∉ canonicalKinds :=
  ⟨rfl, rfl, by decide⟩

/-- C20, amended.  After a successful `Ingress.UnmarshalYAML` the kind and the
variant of the spec are the Kafka pair or the Kinesis pair of the ingress
vocabulary, after a successful `Egress.UnmarshalYAML` those of the egress
vocabulary, and every component of a module built from a document without null
element in its groups has one of the five canonical kinds. -/
theorem kind_agrees_with_spec_variant (doc : Node) :
    (∀ i0 i : Ingress, Ingress.UnmarshalYAML doc i0 = (i, none) →
      (i.Kind = "io.statefun.kafka.v1/ingress" ∧ ∃ s, i.Spec = SpecValue.kafkaIngress s)
        ∨ (i.Kind = "io.statefun.kinesis.v1/ingress" ∧ ∃ s, i.Spec = SpecValue.kinesisIngress s))
    ∧ (∀ e0 e : Egress, Egress.UnmarshalYAML doc e0 = (e, none) →
      (e.Kind = "io.statefun.kafka.v1/egress" ∧ ∃ s, e.Spec = SpecValue.kafkaEgress s)
        ∨ (e.Kind = "io.statefun.kinesis.v1/egress" ∧ ∃ s, e.Spec = SpecValue.kinesisEgress s))
    ∧ (∀ (σ σ' : Store) (m m' : Module),
      Module.UnmarshalYAML doc σ m = ((σ', m'), none) → NoNullElement doc →
      ∀ c ∈ Module.components σ' m', ∃ comp, c = some comp ∧ comp.Kind ∈ canonicalKinds) := by
  refine ⟨?_, ?_, ?_⟩
  · intro i0 i h
    rcases ingress_success h with ⟨l, _, rfl⟩ | ⟨l, _, rfl⟩
    · exact Or.inl ⟨rfl, _, rfl⟩
    · exact Or.inr ⟨rfl, _, rfl⟩
  · intro e0 e h
    rcases egress_success h with ⟨l, _, rfl⟩ | ⟨l, _, rfl⟩
    · exact Or.inl ⟨rfl, _, rfl⟩
    · exact Or.inr ⟨rfl, _, rfl⟩
  · intro σ σ' m m' h hnull c hc
    obtain ⟨legacy, hl, hcase⟩ := component_of_built h hc
    obtain ⟨hE, hI, hG⟩ := decodeLegacyModule_kinds hl hnull
    rcases hcase with ⟨hne, rfl⟩ | ⟨hne, rfl⟩ | ⟨hne, rfl⟩
    · obtain ⟨x, hx, hlast⟩ := getLast_map_mem Component.endpoint
        (Component.endpoint Endpoint.zero) hne
      refine ⟨_, rfl, ?_⟩
      rw [hlast]
      simp [Component.Kind, canonicalKinds, hE x hx]
    · obtain ⟨x, hx, hlast⟩ := getLast_map_mem Component.ingress
        (Component.ingress Ingress.zero) hne
      refine ⟨_, rfl, ?_⟩
      rw [hlast]
      rcases hI x hx with hk | hk <;> simp [Component.Kind, canonicalKinds, hk]
    · obtain ⟨x, hx, hlast⟩ := getLast_map_mem Component.egress
        (Component.egress Egress.zero) hne
      refine ⟨_, rfl, ?_⟩
      rw [hlast]
      rcases hG x hx with hk | hk <;> simp [Component.Kind, canonicalKinds, hk]

/-- Witness of the amended C20: the Kafka ingress of a module with one
endpoint and one ingress, none of them null. -/
theorem kind_agrees_with_spec_variant_witness :
    NoNullElement (legacyModule [sampleEndpoint] [sampleKafkaIngress] [])
      ∧ ∃ comp, some (Component.ingress (Ingress.UnmarshalYAML sampleKafkaIngress Ingress.zero).1)
            = some comp
          ∧ comp.Kind ∈ canonicalKinds := by
  have hn : NoNullElement (legacyModule [sampleEndpoint] [sampleKafkaIngress] []) := by
    intro es hp kv hkv items hitems
    have hes : es = [("endpoints", Node.seq [sampleEndpoint]),
        ("ingresses", Node.seq [sampleKafkaIngress]), ("egresses", Node.seq [])] := by
      have hq : (legacyModule [sampleEndpoint] [sampleKafkaIngress] []).path ["module", "spec"]
          = some (Node.map [("endpoints", Node.seq [sampleEndpoint]),
              ("ingresses", Node.seq [sampleKafkaIngress]), ("egresses", Node.seq [])]) := rfl
      rw [hq] at hp
      simp only [Option.some.injEq, Node.map.injEq] at hp
      exact hp.symm
    subst hes
    simp only [List.mem_cons, List.mem_singleton, List.not_mem_nil, or_false] at hkv
    rcases hkv with rfl | rfl | rfl
    · simp only [Node.seq.injEq] at hitems
      subst hitems
      simp [sampleEndpoint]
    · simp only [Node.seq.injEq] at hitems
      subst hitems
      simp [sampleKafkaIngress]
    · simp only [Node.seq.injEq] at hitems
      subst hitems
      simp
  exact ⟨hn,
    (kind_agrees_with_spec_variant (legacyModule [sampleEndpoint] [sampleKafkaIngress] [])).2.2
      Store.empty _ [] _ rfl hn
      (some (Component.ingress (Ingress.UnmarshalYAML sampleKafkaIngress Ingress.zero).1))
      (List.Mem.tail _ (List.Mem.head _))⟩

end Statefun
